import Mathlib

/-!
Verification development for the Erowid experience-report scraper
(`erowid_scraper.py`).  The pure field extractors (`parse_weight`,
`parse_dates`, the dose-chart / narrative / foot-data parts of
`parse_detail`) are embedded as executable Lean functions over character
lists; the crawl controller (`main`) and the checkpoint store
(`ProgressTracker`) are embedded as a state-passing interpreter that emits
an explicit event trace (HTTP fetches, emitted rows, checkpoint marks and
checkpoint-file saves).  External collaborators (the HTTP stack, the
HTML/tag query primitives of BeautifulSoup, and `dateutil`'s
natural-language date parser) are modelled as inputs: a `Source` record
stands for the remote site already passed through the tag queries, and a
`dparse : String → Option Date` parameter stands for `dateutil.parser.parse`
(returning `none` where the library would raise).
-/

/-! ## Python string primitives used by the extractors -/

/-- The whitespace set of Python's `str.strip()` and of the regex class `\s`. -/
def isPyWhitespace (c : Char) : Bool :=
  c == ' ' || c == '\t' || c == '\n' || c == '\r' || c == '\x0b' || c == '\x0c'

/-- Python `text.strip()`: drop leading and trailing whitespace. -/
def pyStrip (s : String) : String :=
  String.mk (((s.data.dropWhile isPyWhitespace).reverse.dropWhile isPyWhitespace).reverse)

/-- A character matched by the regex class `[\d.]`. -/
def isDigitDot (c : Char) : Bool := c.isDigit || c == '.'

/-- Numeric value of an ASCII digit character. -/
def digitVal (c : Char) : Nat := c.toNat - 48

/-- Value of a list of ASCII digit characters read in base 10. -/
def natOfDigits (l : List Char) : Nat := l.foldl (fun a c => a * 10 + digitVal c) 0

/-- The exact value of the decimal numeral with digit string of value `m`
and `k` digits after the dot. -/
def decValue (m k : Nat) : ℚ := (m : ℚ) / 10 ^ k

/-- Python `float()` restricted to the strings the weight regex can capture
(characters are digits and dots only): at most one dot and at least one
digit, otherwise `ValueError` (modelled as `none`).  Such strings denote
exact decimals, returned as rationals. -/
def parseFloatDigits (l : List Char) : Option ℚ :=
  let intPart := l.takeWhile (fun c => c != '.')
  let rest := l.drop intPart.length
  match rest with
  | [] => if l.isEmpty then none else some (decValue (natOfDigits intPart) 0)
  | _ :: frac =>
    if frac.any (fun c => c == '.') then none
    else if intPart.isEmpty && frac.isEmpty then none
    else some (decValue (natOfDigits intPart * 10 ^ frac.length + natOfDigits frac) frac.length)

/-! ## `parse_weight` -/

/-- `re.match(r'([\d.]+)\s*([a-zA-Z]+)', text)`: anchored at the start, a
maximal run of digits/dots, optional whitespace, then a maximal nonempty run
of ASCII letters.  (Backtracking cannot help here: giving back digit/dot or
whitespace characters never exposes a letter, so the greedy reading is
exact.)  Returns the two capture groups. -/
def reWeightMatch (l : List Char) : Option (List Char × List Char) :=
  let digits := l.takeWhile isDigitDot
  if digits.isEmpty then none
  else
    let rest := (l.drop digits.length).dropWhile isPyWhitespace
    let letters := rest.takeWhile Char.isAlpha
    if letters.isEmpty then none else some (digits, letters)

/-- `parse_weight` from `erowid_scraper.py`: empty input short-circuits to
`(None, None)`; otherwise strip, match the magnitude/unit regex, convert the
magnitude with `float()` (a failure there is caught and yields
`(None, None)`), lowercase the unit and strip trailing `'s'` characters
(`.rstrip('s')`). -/
def parse_weight (text : String) : Option ℚ × Option String :=
  if text == "" then (none, none)
  else
    match reWeightMatch (pyStrip text).data with
    | none => (none, none)
    | some (digits, letters) =>
      match parseFloatDigits digits with
      | none => (none, none)
      | some v =>
        (some v,
         some (String.mk (((letters.map Char.toLower).reverse.dropWhile (fun c => c == 's')).reverse)))

/-! ## `parse_dates` -/

/-- A calendar date as produced by the date-parsing layer (the time-of-day
part of Python's `datetime` plays no role in the scraper). -/
structure Date where
  year : Nat
  month : Nat
  day : Nat
deriving DecidableEq

/-- A character of the regex class `\w`. -/
def isWordChar (c : Char) : Bool := c.isAlphanum || c == '_'

/-- Try to match `(19|20)\d{2}\b` at the head of the list (the right word
boundary is checked against the following character). -/
def yearAt : List Char → Option Nat
  | c1 :: c2 :: c3 :: c4 :: rest =>
    if ((c1 == '1' && c2 == '9') || (c1 == '2' && c2 == '0')) && c3.isDigit && c4.isDigit
        && (match rest with | [] => true | r :: _ => !isWordChar r) then
      some (digitVal c1 * 1000 + digitVal c2 * 100 + digitVal c3 * 10 + digitVal c4)
    else none
  | _ => none

/-- Left-to-right scan of `re.search(r'\b(19|20)\d{2}\b', raw)`: a match may
start at a position only when the previous character (if any) is not a word
character (the pattern starts with a digit, so `\b` reduces to exactly
that). -/
def searchYearAux : Option Char → List Char → Option Nat
  | _, [] => none
  | prev, c :: rest =>
    if (match prev with | none => true | some p => !isWordChar p) then
      match yearAt (c :: rest) with
      | some y => some y
      | none => searchYearAux (some c) rest
    else searchYearAux (some c) rest

/-- First 4-digit year token `(19|20)\d{2}` with word boundaries in the
string, as found by `re.search`. -/
def findYearToken (s : String) : Option Nat := searchYearAux none s.data

/-- `parse_dates` from `erowid_scraper.py`, with `dateutil.parser.parse`
supplied as the oracle `dparse` (`none` models the library raising).  Falsy
(empty) input returns `None` without attempting to parse; otherwise try the
full parser; on failure search for a 4-digit year token and return January 1
of that year; otherwise `None`. -/
def parse_dates (dparse : String → Option Date) (raw : String) : Option Date :=
  if raw == "" then none
  else
    match dparse raw with
    | some d => some d
    | none =>
      match findYearToken raw with
      | some y => some ⟨y, 1, 1⟩
      | none => none

/-! ## `parse_detail`: dose chart -/

/-- One `<tr>` of the dose chart as seen through the tag queries: for each of
the three cell classes (`dosechart-substance`, `dosechart-amount`,
`dosechart-method`), `none` when `row.find` returns no such cell and
`some t` when the cell is present with stripped text `t` (`get_text` returns
a string, possibly empty, never `None`). -/
structure DoseRowCells where
  substance : Option String
  amount : Option String
  method : Option String
deriving DecidableEq

/-- The rows retained by the scraper: those containing a substance cell
(header/filler rows excluded). -/
def doseDataRows (rows : List DoseRowCells) : List DoseRowCells :=
  rows.filter (fun r => r.substance.isSome)

/-- Slot `i` (1-based) of the dose chart: the cells of data row `i` when
`i <= len(dose_data_rows)`, else explicit nulls. -/
def doseSlot (dataRows : List DoseRowCells) (i : Nat) :
    Option String × Option String × Option String :=
  if i ≤ dataRows.length then
    match dataRows[i-1]? with
    | some r => (r.substance, r.amount, r.method)
    | none => (none, none, none)
  else (none, none, none)

/-- The `for i in range(1, 11)` loop of `parse_detail`: exactly 10 ordered
slots; when the dose table is absent every slot is null. -/
def doseSlots (table : Option (List DoseRowCells)) :
    List (Option String × Option String × Option String) :=
  match table with
  | some rows => (List.range' 1 10).map (doseSlot (doseDataRows rows))
  | none => (List.range' 1 10).map (fun _ => (none, none, none))

/-! ## `parse_detail`: the `re.search(r':\s*(.+)', cell_text)` extraction -/

/-- Capture group of `:\s*(.+)` immediately after a colon, `l` being the
characters following the colon.  Backtracking semantics: `\s*` consumes the
longest whitespace prefix that still leaves a non-newline character for
`.+`; the group then runs to the next newline or the end.  When a
non-whitespace character exists it is the first such character and the group
starts there; when the remainder is all whitespace the group is the last
character that is not a newline, if any. -/
def colonGroup (l : List Char) : Option (List Char) :=
  let rest := l.dropWhile isPyWhitespace
  if rest.isEmpty then
    match l.reverse.dropWhile (fun c => c == '\n') with
    | [] => none
    | c :: _ => some [c]
  else some (rest.takeWhile (fun c => c != '\n'))

/-- Left-to-right scan of `re.search(r':\s*(.+)', s)`: the first colon at
which the rest of the pattern can match wins. -/
def extractAfterColonAux : List Char → Option (List Char)
  | [] => none
  | c :: rest =>
    if c = ':' then
      match colonGroup rest with
      | some g => some g
      | none => extractAfterColonAux rest
    else extractAfterColonAux rest

/-- The substring extracted from a foot-data cell for date parsing. -/
def extractAfterColon (s : String) : Option String :=
  (extractAfterColonAux s.data).map String.mk

/-! ## `parse_detail`: experience-date scan over the foot-data cells -/

/-- `listStartsWith pat l`: `pat` is an initial segment of `l`. -/
def listStartsWith : List Char → List Char → Bool
  | [], _ => true
  | _ :: _, [] => false
  | p :: ps, c :: cs => p == c && listStartsWith ps cs

/-- Python's `pat in s` substring test over character lists. -/
def containsSub (pat : List Char) : List Char → Bool
  | [] => listStartsWith pat []
  | c :: rest => listStartsWith pat (c :: rest) || containsSub pat rest

/-- `'exp year' in cell_text.lower() or 'experience' in cell_text.lower()`. -/
def keywordMatch (cell : String) : Bool :=
  containsSub "exp year".data (cell.data.map Char.toLower) ||
  containsSub "experience".data (cell.data.map Char.toLower)

/-- The experience-date loop of `parse_detail` over the texts of all
foot-data cells.  The loop variable `date_experience` survives iterations
but `break` fires only on a truthy (successful) parse, so the recursion
continues past a keyword cell whose extracted text fails to parse. -/
def scanExperienceDate (dparse : String → Option Date) : List String → Option Date
  | [] => none
  | c :: rest =>
    if keywordMatch c then
      match extractAfterColon c with
      | some ds =>
        match parse_dates dparse ds with
        | some d => some d
        | none => scanExperienceDate dparse rest
      | none => scanExperienceDate dparse rest
    else scanExperienceDate dparse rest

/-! ## `parse_detail`: narrative text -/

/-- Replacement for one run of `n` consecutive newlines under
`re.sub(r'\n{3,}', '\n\n', text)`. -/
def emitNewlines (n : Nat) : List Char := List.replicate (if 3 ≤ n then 2 else n) '\n'

/-- Scan of the whole text: `n` counts the pending newline run. -/
def collapseAux : Nat → List Char → List Char
  | n, [] => emitNewlines n
  | n, c :: cs =>
    if c = '\n' then collapseAux (n + 1) cs
    else emitNewlines n ++ c :: collapseAux 0 cs

/-- `re.sub(r'\n{3,}', '\n\n', text)`: every run of 3 or more consecutive
newline characters becomes exactly two newlines. -/
def collapseNewlines (s : String) : String := String.mk (collapseAux 0 s.data)

/-- The narrative-text logic of `parse_detail`.  `reportDiv` is the text of
the `report-text-surround` container after removing nested tables
(`get_text(separator='\n', strip=True)`, a library call, hence an input
here), `none` when the container is absent; `sentinel` likewise for the
HTML between the `<!--Start Body -->` / `<!--End Body -->` markers, `none`
when either marker is missing.  An empty collapsed text is falsy and is
stored as `None`. -/
def narrativeText (reportDiv sentinel : Option String) : Option String :=
  match reportDiv with
  | some t =>
    let t2 := collapseNewlines t
    if t2 = "" then none else some t2
  | none =>
    match sentinel with
    | some t =>
      let t2 := collapseNewlines t
      if t2 = "" then none else some t2
    | none => none

/-! ## `parse_detail`: assembled model -/

/-- A detail page as seen through the tag-query collaborators, restricted to
the parts the verified extraction paths read: the dose-chart rows (`none`
when `soup.find('table', class_='dosechart')` fails), the text of the
body-weight amount cell, the two narrative sources, and the stripped texts
of all `<td>` cells of the foot-data table in document order (`none` when
the foot-data table is absent). -/
structure DetailPage where
  doseTable : Option (List DoseRowCells)
  weightText : Option String
  reportDivText : Option String
  sentinelText : Option String
  footCells : Option (List String)
deriving DecidableEq

/-- The fields of the detail record settled by the modelled extraction
paths of `parse_detail`. -/
structure DetailResult where
  slots : List (Option String × Option String × Option String)
  weight_val : Option ℚ
  weight_scale : Option String
  text : Option String
  date_experience : Option Date
deriving DecidableEq

/-- `parse_detail` over a `DetailPage`, with `dateutil.parser.parse`
supplied as `dparse`.  Weight: absent table or absent amount cell both
yield `(None, None)`, as does `parse_weight` failure.  Experience date:
scanned from the foot-data cells, `None` when the foot-data table is
absent. -/
def parse_detail_model (dparse : String → Option Date) (page : DetailPage) : DetailResult :=
  let w := match page.weightText with
           | some t => parse_weight t
           | none => (none, none)
  { slots := doseSlots page.doseTable
    weight_val := w.1
    weight_scale := w.2
    text := narrativeText page.reportDivText page.sentinelText
    date_experience :=
      match page.footCells with
      | some cells => scanExperienceDate dparse cells
      | none => none }

example : doseSlots none = List.replicate 10 (none, none, none) := by decide
example : extractAfterColon "Exp Year: 2020" = some "2020" := by decide
example : keywordMatch "Exp Year: 2020" = true := by decide
example : scanExperienceDate (fun _ => none) ["Experience: gibberish", "Exp Year: 1984"]
    = some ⟨1984, 1, 1⟩ := by decide
example : collapseNewlines "a\n\n\nb" = "a\n\nb" := by decide
example : collapseNewlines "a\n\nb" = "a\n\nb" := by decide
example : narrativeText (some "") none = none := by decide

example : parse_weight "170 lb" = (some (decValue 170 0), some "lb") := rfl
example : parse_weight "77.5 kgs" = (some (decValue 775 1), some "kg") := rfl
example : decValue 775 1 = 155 / 2 := by norm_num [decValue]
example : parse_weight "" = (none, none) := rfl
example : parse_weight "12.5.3 kg" = (none, none) := rfl
example : findYearToken "born in 1984, maybe" = some 1984 := by decide
example : findYearToken "21999" = none := by decide
example : parse_dates (fun _ => none) "1984" = some ⟨1984, 1, 1⟩ := by decide

/-! ## Crawl controller and checkpoint store

The `main` loop of `erowid_scraper.py` together with `ProgressTracker` is
embedded as a state-passing interpreter over an abstract `Source` (the
remote site already passed through `parse_listing` / `parse_detail` /
`get_total_pages`).  Every HTTP fetch, emitted output row, checkpoint mark
(`mark_page_completed` mutating the state) and checkpoint-file write
(`save_progress`) is recorded as an event, in program order. -/

/-- A summary record accepted from a listing page.  `parse_listing` appends
a row only when a resolvable detail link was found, so the link is a
required field; the other cells may be absent. -/
structure SummaryRec where
  rating : Option String
  author : Option String
  title : Option String
  detail_url : String
deriving DecidableEq

/-- The detail fields merged into a row on a successful `parse_detail`
call, abstracted to the experience id (used for `add_experience`; `none`
models an absent or `None` value) plus an opaque field dictionary. -/
structure DetailFields where
  idField : Option Int
  fields : List (String × String)
deriving DecidableEq

/-- One accumulated output row: the listing cells (with `detail_url`
popped), the detail fields when `parse_detail` succeeded (`none` on the
fallback partial record), and the substance id `sid` attached in both
branches. -/
structure RowOut where
  rating : Option String
  author : Option String
  title : Option String
  detail : Option DetailFields
  sid : String
deriving DecidableEq

/-- The HTTP requests `main` can issue: the base listing URL fetched by
`get_total_pages`, the per-page listing URL (`...&Start=offset&Max=100`)
fetched by `parse_listing`, and a detail-page URL fetched by
`parse_detail`. -/
inductive Fetch where
  | base (sid : String)
  | page (sid : String) (num : Nat)
  | detail (url : String)
deriving DecidableEq

/-- The JSON checkpoint state of `ProgressTracker` (timestamps omitted:
they carry no control flow). -/
structure ProgressData where
  completed_pages : List String
  completed_experiences : List Int
  total_scraped : Nat
  substance_progress : List (String × Nat × Nat)
deriving DecidableEq

/-- The fresh progress structure returned by `load_progress` when no
checkpoint file exists. -/
def emptyProgress : ProgressData := ⟨[], [], 0, []⟩

/-- Events of a crawl run, in program order. -/
inductive Ev where
  | fetch (f : Fetch)
  | row (r : RowOut)
  | mark (sid : String) (page : Nat) (count : Nat)
  | save (pd : ProgressData)
deriving DecidableEq

/-- The unchanged remote site, as seen through the readers: `totalPages`
is the result of `get_total_pages` for a category, `listing` the rows
`parse_listing` accepts from a page (a failed fetch or a page without the
experience table yields `[]`), and `detail` the outcome of the per-row
detail path (`Except.error` models an exception escaping into the
row-level handler of `main`; `Except.ok` a returned field dict). -/
structure Source where
  totalPages : String → Nat
  listing : String → Nat → List SummaryRec
  detail : String → Except Unit DetailFields

/-- `f"{substance_id}_page_{page_num}"`. -/
def pageId (sid : String) (n : Nat) : String := sid ++ "_page_" ++ Nat.repr n

/-- `ProgressTracker.is_page_completed`. -/
def is_page_completed (pd : ProgressData) (sid : String) (n : Nat) : Bool :=
  pd.completed_pages.contains (pageId sid n)

/-- The `substance_progress` update inside `mark_page_completed`:
initialise the per-substance dict entry if missing, then increment its page
counter and add the experience count. -/
def bumpSubstance (sp : List (String × Nat × Nat)) (sid : String) (cnt : Nat) :
    List (String × Nat × Nat) :=
  if sp.any (fun e => e.1 == sid) then
    sp.map (fun e => if e.1 == sid then (e.1, e.2.1 + 1, e.2.2 + cnt) else e)
  else sp ++ [(sid, 1, cnt)]

/-- `ProgressTracker.mark_page_completed` followed by its internal
`save_progress`: a no-op when the page id is already recorded, otherwise
the mutation plus a mark event and an immediate save event carrying the
persisted state. -/
def mark_page_completed (pd : ProgressData) (sid : String) (n : Nat) (cnt : Nat) :
    ProgressData × List Ev :=
  if pd.completed_pages.contains (pageId sid n) then (pd, [])
  else
    let pd2 : ProgressData :=
      { completed_pages := pd.completed_pages ++ [pageId sid n]
        completed_experiences := pd.completed_experiences
        total_scraped := pd.total_scraped + cnt
        substance_progress := bumpSubstance pd.substance_progress sid cnt }
    (pd2, [Ev.mark sid n cnt, Ev.save pd2])

/-- `ProgressTracker.add_experience`. -/
def add_experience (pd : ProgressData) (i : Int) : ProgressData :=
  if pd.completed_experiences.contains i then pd
  else { pd with completed_experiences := pd.completed_experiences ++ [i] }

/-- The row built from a summary record: `{**exp, **detail_data}` with
`detail_url` popped and `sid` attached (the partial fallback is the same
with no detail fields). -/
def summaryRow (exp : SummaryRec) (detail : Option DetailFields) (sid : String) : RowOut :=
  { rating := exp.rating, author := exp.author, title := exp.title
    detail := detail, sid := sid }

/-- One iteration of the per-row loop of `main`: fetch the detail page;
on success register the experience id when truthy (nonzero and present)
and emit the merged row; on an exception emit the partial
(summary-only) row.  Exactly one row event is emitted either way. -/
def processRow (src : Source) (sid : String) (pd : ProgressData) (exp : SummaryRec) :
    ProgressData × List Ev :=
  match src.detail exp.detail_url with
  | Except.ok d =>
    let pd2 := match d.idField with
               | some i => if i == 0 then pd else add_experience pd i
               | none => pd
    (pd2, [Ev.fetch (Fetch.detail exp.detail_url), Ev.row (summaryRow exp (some d) sid)])
  | Except.error _ =>
    (pd, [Ev.fetch (Fetch.detail exp.detail_url), Ev.row (summaryRow exp none sid)])

/-- The per-row loop over a page's accepted summary records. -/
def processRows (src : Source) (sid : String) :
    ProgressData → List SummaryRec → ProgressData × List Ev
  | pd, [] => (pd, [])
  | pd, exp :: rest =>
    ((processRows src sid (processRow src sid pd exp).1 rest).1,
     (processRow src sid pd exp).2 ++ (processRows src sid (processRow src sid pd exp).1 rest).2)

/-- The body of a processed page: run all rows, then mark the page
completed with `len(page_experiences)` (one entry per processed record)
and persist.  The trailing `false` means the page loop continues. -/
def pageBody (src : Source) (sid : String) (n : Nat) (pd : ProgressData)
    (exps : List SummaryRec) : ProgressData × List Ev × Bool :=
  ((mark_page_completed (processRows src sid pd exps).1 sid n exps.length).1,
   Ev.fetch (Fetch.page sid n) ::
     ((processRows src sid pd exps).2 ++
      (mark_page_completed (processRows src sid pd exps).1 sid n exps.length).2),
   false)

/-- One iteration of the page loop of `main` for page `n` of category
`sid`.  Completed pages are skipped before any fetch; an empty listing
(including a failed fetch) moves on without marking; with a truthy
row cap (`limit_per_page`), rows are truncated to the cap and pages
beyond the second break out of the page loop (the `Bool` result). -/
def processPage (src : Source) (lim : Option Nat) (pd : ProgressData)
    (sid : String) (n : Nat) : ProgressData × List Ev × Bool :=
  if is_page_completed pd sid n then (pd, [], false)
  else
    if (src.listing sid n).isEmpty then (pd, [Ev.fetch (Fetch.page sid n)], false)
    else
      match lim with
      | some (k + 1) =>
        if 2 < n then (pd, [Ev.fetch (Fetch.page sid n)], true)
        else pageBody src sid n pd ((src.listing sid n).take (k + 1))
      | _ => pageBody src sid n pd (src.listing sid n)

/-- The page loop (`for page_num in range(1, total_pages + 1)`), honouring
the break flag. -/
def runPages (src : Source) (lim : Option Nat) (sid : String) :
    ProgressData → List Nat → ProgressData × List Ev
  | pd, [] => (pd, [])
  | pd, n :: rest =>
    if (processPage src lim pd sid n).2.2 then
      ((processPage src lim pd sid n).1, (processPage src lim pd sid n).2.1)
    else
      ((runPages src lim sid (processPage src lim pd sid n).1 rest).1,
       (processPage src lim pd sid n).2.1 ++
         (runPages src lim sid (processPage src lim pd sid n).1 rest).2)

/-- One category: `get_total_pages` fetches the base listing URL
unconditionally, then pages `1 .. totalPages` are iterated. -/
def runCategory (src : Source) (lim : Option Nat) (pd : ProgressData) (sid : String) :
    ProgressData × List Ev :=
  ((runPages src lim sid pd (List.range' 1 (src.totalPages sid))).1,
   Ev.fetch (Fetch.base sid) :: (runPages src lim sid pd (List.range' 1 (src.totalPages sid))).2)

/-- The category loop of `main` over the substance ids extracted from the
listing URLs, starting from the checkpoint state loaded at startup. -/
def runCrawl (src : Source) (lim : Option Nat) :
    ProgressData → List String → ProgressData × List Ev
  | pd, [] => (pd, [])
  | pd, sid :: rest =>
    ((runCrawl src lim (runCategory src lim pd sid).1 rest).1,
     (runCategory src lim pd sid).2 ++ (runCrawl src lim (runCategory src lim pd sid).1 rest).2)

/-- The fixed category list of `main` (`S1=39`, `S1=2`, `S1=8`). -/
def listingSids : List String := ["39", "2", "8"]

/-- The output rows accumulated by a run, in emission order
(`all_experiences`). -/
def rowsOf (evs : List Ev) : List RowOut :=
  evs.filterMap (fun e => match e with | Ev.row r => some r | _ => none)

/-- `df.to_csv(output_file, index=False)`: the output file is rewritten
from scratch; its previous content does not contribute. -/
def writeCsv (_oldContent newRows : List RowOut) : List RowOut := newRows

/-- Recognise a mark event for a given page unit. -/
def isMarkOf (sid : String) (n : Nat) : Ev → Bool :=
  fun e => match e with | Ev.mark s m _ => s == sid && m == n | _ => false

/-- Number of times a run marked the given page unit completed. -/
def countMarks (evs : List Ev) (sid : String) (n : Nat) : Nat := evs.countP (isMarkOf sid n)

/-- Every mark event is immediately followed by a save event. -/
def marksSaved : List Ev → Bool
  | [] => true
  | Ev.mark _ _ _ :: rest =>
    (match rest with | Ev.save _ :: _ => true | _ => false) && marksSaved rest
  | _ :: rest => marksSaved rest

/-- The trace does not end in a dangling mark (used to compose
`marksSaved` across concatenation). -/
def endsOk : List Ev → Bool
  | [] => true
  | [Ev.mark _ _ _] => false
  | [_] => true
  | _ :: rest => endsOk rest

/-- Events a row iteration may emit: detail fetches and rows only. -/
def rowish : Ev → Bool
  | Ev.fetch (Fetch.detail _) => true
  | Ev.row _ => true
  | _ => false

/-- `Except` outcome of the detail path collapsed to the presence of
detail fields in the emitted row. -/
def exceptToOption : Except Unit DetailFields → Option DetailFields
  | Except.ok d => some d
  | Except.error _ => none

/-- Recognise a mark event. -/
def isMark : Ev → Bool
  | Ev.mark _ _ _ => true
  | _ => false

/-! ## Trace bookkeeping lemmas -/

theorem marksSaved_cons_of_not_mark (e : Ev) (rest : List Ev) (h : isMark e = false) :
    marksSaved (e :: rest) = marksSaved rest := by
  cases e <;> simp_all [isMark, marksSaved]

theorem endsOk_cons (e : Ev) (rest : List Ev) :
    endsOk (e :: rest) = (if rest = [] then !isMark e else endsOk rest) := by
  cases rest <;> cases e <;> simp [endsOk, isMark]

theorem marksSaved_append (a b : List Ev) (ha : marksSaved a = true) (hea : endsOk a = true)
    (hb : marksSaved b = true) : marksSaved (a ++ b) = true := by
  induction a with
  | nil => simpa using hb
  | cons e rest ih =>
    by_cases hm : isMark e = true
    · cases e with
      | mark s n c =>
        rw [endsOk_cons] at hea
        cases rest with
        | nil => simp [isMark] at hea
        | cons e2 rest2 =>
          simp only [marksSaved, Bool.and_eq_true] at ha
          cases e2 with
          | save pd =>
            simp only [List.cons_append, marksSaved, Bool.and_eq_true]
            refine ⟨rfl, ?_⟩
            exact ih ha.2 (by simpa using hea)
          | fetch f => simp at ha
          | row r => simp at ha
          | mark s2 n2 c2 => simp at ha
      | fetch f => simp [isMark] at hm
      | row r => simp [isMark] at hm
      | save pd => simp [isMark] at hm
    · replace hm : isMark e = false := by revert hm; cases isMark e <;> simp
      rw [marksSaved_cons_of_not_mark e rest hm] at ha
      rw [List.cons_append, marksSaved_cons_of_not_mark e (rest ++ b) hm]
      rw [endsOk_cons] at hea
      cases rest with
      | nil => simpa using hb
      | cons e2 rest2 => exact ih ha (by simpa using hea)

theorem endsOk_append (a b : List Ev) (ha : endsOk a = true) (hb : endsOk b = true) :
    endsOk (a ++ b) = true := by
  induction a with
  | nil => simpa using hb
  | cons e rest ih =>
    rw [List.cons_append, endsOk_cons]
    rw [endsOk_cons] at ha
    cases rest with
    | nil =>
      cases b with
      | nil => simpa using ha
      | cons b1 bs => simpa using hb
    | cons e2 rest2 =>
      have : (e2 :: rest2) ++ b ≠ [] := by simp
      simp only [this, if_neg, List.cons_append]
      have := ih (by simpa using ha)
      simpa using this

theorem countMarks_append (a b : List Ev) (s : String) (m : Nat) :
    countMarks (a ++ b) s m = countMarks a s m + countMarks b s m := by
  simp [countMarks, List.countP_append]

theorem rowsOf_append (a b : List Ev) : rowsOf (a ++ b) = rowsOf a ++ rowsOf b := by
  simp [rowsOf, List.filterMap_append]

theorem rowish_marksSaved (evs : List Ev) (h : evs.all rowish = true) :
    marksSaved evs = true := by
  induction evs with
  | nil => rfl
  | cons e rest ih =>
    simp only [List.all_cons, Bool.and_eq_true] at h
    have hm : isMark e = false := by
      cases e <;> simp_all [rowish, isMark]
    rw [marksSaved_cons_of_not_mark e rest hm]
    exact ih h.2

theorem rowish_endsOk (evs : List Ev) (h : evs.all rowish = true) : endsOk evs = true := by
  induction evs with
  | nil => rfl
  | cons e rest ih =>
    simp only [List.all_cons, Bool.and_eq_true] at h
    rw [endsOk_cons]
    cases rest with
    | nil =>
      have : isMark e = false := by cases e <;> simp_all [rowish, isMark]
      simp [this]
    | cons e2 r2 => simpa using ih h.2

theorem rowish_countMarks (evs : List Ev) (h : evs.all rowish = true) (s : String) (m : Nat) :
    countMarks evs s m = 0 := by
  rw [countMarks, List.countP_eq_zero]
  intro e he
  have := List.all_eq_true.mp h e he
  cases e <;> simp_all [rowish, isMarkOf]

theorem rowish_no_page_fetch (evs : List Ev) (h : evs.all rowish = true) (s : String) (m : Nat) :
    Ev.fetch (Fetch.page s m) ∉ evs := by
  intro hmem
  have := List.all_eq_true.mp h _ hmem
  simp [rowish] at this

/-! ## Row-loop lemmas -/

theorem processRow_trace (src : Source) (sid : String) (pd : ProgressData) (exp : SummaryRec) :
    (processRow src sid pd exp).2 =
      [Ev.fetch (Fetch.detail exp.detail_url),
       Ev.row (summaryRow exp (exceptToOption (src.detail exp.detail_url)) sid)] := by
  unfold processRow
  cases src.detail exp.detail_url <;> simp [exceptToOption]

theorem add_experience_completed (pd : ProgressData) (i : Int) :
    (add_experience pd i).completed_pages = pd.completed_pages := by
  unfold add_experience
  split <;> rfl

theorem processRow_completed (src : Source) (sid : String) (pd : ProgressData)
    (exp : SummaryRec) :
    (processRow src sid pd exp).1.completed_pages = pd.completed_pages := by
  unfold processRow
  cases src.detail exp.detail_url with
  | error e => rfl
  | ok d =>
    dsimp only
    cases d.idField with
    | none => rfl
    | some i =>
      dsimp only
      split
      · rfl
      · exact add_experience_completed pd i

theorem processRows_rowish (src : Source) (sid : String) (exps : List SummaryRec) :
    ∀ pd, (processRows src sid pd exps).2.all rowish = true := by
  induction exps with
  | nil => intro pd; rfl
  | cons e rest ih =>
    intro pd
    simp only [processRows, List.all_append, Bool.and_eq_true]
    exact ⟨by rw [processRow_trace]; rfl, ih _⟩

theorem processRows_rowsOf (src : Source) (sid : String) (exps : List SummaryRec) :
    ∀ pd, rowsOf (processRows src sid pd exps).2 =
      exps.map (fun e => summaryRow e (exceptToOption (src.detail e.detail_url)) sid) := by
  induction exps with
  | nil => intro pd; rfl
  | cons e rest ih =>
    intro pd
    simp only [processRows]
    rw [rowsOf_append, processRow_trace, ih]
    simp [rowsOf]

theorem processRows_completed (src : Source) (sid : String) (exps : List SummaryRec) :
    ∀ pd, (processRows src sid pd exps).1.completed_pages = pd.completed_pages := by
  induction exps with
  | nil => intro pd; rfl
  | cons e rest ih =>
    intro pd
    simp only [processRows]
    rw [ih, processRow_completed]

/-! ## Checkpoint-mark lemmas -/

theorem is_page_completed_iff (pd : ProgressData) (sid : String) (n : Nat) :
    is_page_completed pd sid n = true ↔ pageId sid n ∈ pd.completed_pages := by
  simp [is_page_completed]

theorem mark_cases (pd : ProgressData) (sid : String) (n : Nat) (cnt : Nat) :
    (pd.completed_pages.contains (pageId sid n) = true ∧
      mark_page_completed pd sid n cnt = (pd, [])) ∨
    (pd.completed_pages.contains (pageId sid n) = false ∧
      (mark_page_completed pd sid n cnt).1.completed_pages =
        pd.completed_pages ++ [pageId sid n] ∧
      (mark_page_completed pd sid n cnt).2 =
        [Ev.mark sid n cnt, Ev.save (mark_page_completed pd sid n cnt).1]) := by
  cases h : pd.completed_pages.contains (pageId sid n) with
  | true =>
    have hm : pageId sid n ∈ pd.completed_pages := by simpa using h
    exact Or.inl ⟨rfl, by simp [mark_page_completed, hm]⟩
  | false =>
    have hm : pageId sid n ∉ pd.completed_pages := by simpa using h
    exact Or.inr ⟨rfl, by simp [mark_page_completed, hm], by simp [mark_page_completed, hm]⟩

theorem countMarks_mark_save (sid : String) (n cnt : Nat) (pd : ProgressData)
    (s : String) (m : Nat) :
    countMarks [Ev.mark sid n cnt, Ev.save pd] s m = if sid = s ∧ n = m then 1 else 0 := by
  simp only [countMarks, List.countP_cons, List.countP_nil, isMarkOf]
  by_cases hs : sid = s <;> by_cases hn : n = m <;> simp [hs, hn]

/-! ## Page-level lemmas -/

theorem pageBody_eq (src : Source) (sid : String) (n : Nat) (pd : ProgressData)
    (exps : List SummaryRec) (h : is_page_completed pd sid n = false) :
    pageBody src sid n pd exps =
      ((mark_page_completed (processRows src sid pd exps).1 sid n exps.length).1,
       Ev.fetch (Fetch.page sid n) ::
         ((processRows src sid pd exps).2 ++
          [Ev.mark sid n exps.length,
           Ev.save (mark_page_completed (processRows src sid pd exps).1 sid n exps.length).1]),
       false) := by
  have hc : (processRows src sid pd exps).1.completed_pages.contains (pageId sid n) = false := by
    rw [processRows_completed]
    exact h
  rcases mark_cases (processRows src sid pd exps).1 sid n exps.length with ⟨h1, _⟩ | ⟨h1, h2, h3⟩
  · rw [hc] at h1
    cases h1
  · unfold pageBody
    rw [h3]

theorem pageBody_ext (src : Source) (sid : String) (n : Nat) (pd : ProgressData)
    (exps : List SummaryRec) :
    ∃ ext, (pageBody src sid n pd exps).1.completed_pages = pd.completed_pages ++ ext := by
  unfold pageBody
  rcases mark_cases (processRows src sid pd exps).1 sid n exps.length with ⟨_, h2⟩ | ⟨_, h2, _⟩
  · exact ⟨[], by rw [h2, processRows_completed]; simp⟩
  · exact ⟨[pageId sid n], by rw [h2, processRows_completed]⟩

theorem pageBody_countMarks (src : Source) (sid : String) (n : Nat) (pd : ProgressData)
    (exps : List SummaryRec) (s : String) (m : Nat) :
    (is_page_completed pd s m = true → countMarks (pageBody src sid n pd exps).2.1 s m = 0) ∧
    countMarks (pageBody src sid n pd exps).2.1 s m ≤ 1 ∧
    (1 ≤ countMarks (pageBody src sid n pd exps).2.1 s m →
      is_page_completed (pageBody src sid n pd exps).1 s m = true) := by
  have hrows : countMarks (processRows src sid pd exps).2 s m = 0 :=
    rowish_countMarks _ (processRows_rowish src sid exps pd) s m
  have hfetch : ∀ evs : List Ev,
      countMarks (Ev.fetch (Fetch.page sid n) :: evs) s m = countMarks evs s m := by
    intro evs
    simp [countMarks, List.countP_cons, isMarkOf]
  unfold pageBody
  rcases mark_cases (processRows src sid pd exps).1 sid n exps.length with ⟨h1, h2⟩ | ⟨h1, h2, h3⟩
  · rw [h2]
    dsimp only
    rw [List.append_nil, hfetch, hrows]
    refine ⟨fun _ => ?_, ?_, fun hge => ?_⟩
    · trivial
    · omega
    · exact absurd hge (by omega)
  · rw [h3, hfetch, countMarks_append, hrows, countMarks_mark_save]
    have hpd : (processRows src sid pd exps).1.completed_pages = pd.completed_pages :=
      processRows_completed src sid exps pd
    by_cases hcond : sid = s ∧ n = m
    · obtain ⟨hs, hn⟩ := hcond
      subst hs
      subst hn
      refine ⟨fun hcomp => ?_, by simp, fun _ => ?_⟩
      · rw [hpd] at h1
        rw [is_page_completed] at hcomp
        rw [hcomp] at h1
        cases h1
      · rw [is_page_completed_iff, h2, hpd]
        simp
    · simp only [hcond, if_false]
      refine ⟨fun _ => ?_, ?_, fun hge => ?_⟩
      · trivial
      · omega
      · exact absurd hge (by omega)

theorem pageBody_no_page_fetch (src : Source) (sid : String) (n : Nat) (pd : ProgressData)
    (exps : List SummaryRec) (s : String) (m : Nat)
    (hmem : Ev.fetch (Fetch.page s m) ∈ (pageBody src sid n pd exps).2.1) :
    s = sid ∧ m = n := by
  unfold pageBody at hmem
  dsimp only at hmem
  rcases List.mem_cons.mp hmem with heq | hmem2
  · injection heq with h
    injection h with h1 h2
    exact ⟨h1, h2⟩
  · rcases List.mem_append.mp hmem2 with hr | hm
    · exact absurd hr (rowish_no_page_fetch _ (processRows_rowish src sid exps pd) s m)
    · rcases mark_cases (processRows src sid pd exps).1 sid n exps.length with ⟨_, h2⟩ | ⟨_, _, h3⟩
      · rw [h2] at hm
        cases hm
      · rw [h3] at hm
        rcases List.mem_cons.mp hm with h | h
        · cases h
        · rcases List.mem_cons.mp h with h4 | h4
          · cases h4
          · cases h4

theorem pageBody_wf (src : Source) (sid : String) (n : Nat) (pd : ProgressData)
    (exps : List SummaryRec) :
    marksSaved (pageBody src sid n pd exps).2.1 = true ∧
    endsOk (pageBody src sid n pd exps).2.1 = true := by
  have hra : (processRows src sid pd exps).2.all rowish = true :=
    processRows_rowish src sid exps pd
  have hms : ∀ mevs : List Ev, marksSaved mevs = true → endsOk mevs = true →
      marksSaved (Ev.fetch (Fetch.page sid n) ::
        ((processRows src sid pd exps).2 ++ mevs)) = true ∧
      endsOk (Ev.fetch (Fetch.page sid n) ::
        ((processRows src sid pd exps).2 ++ mevs)) = true := by
    intro mevs hm he
    constructor
    · rw [marksSaved_cons_of_not_mark _ _ (by rfl)]
      exact marksSaved_append _ _ (rowish_marksSaved _ hra) (rowish_endsOk _ hra) hm
    · rw [endsOk_cons]
      have : endsOk ((processRows src sid pd exps).2 ++ mevs) = true :=
        endsOk_append _ _ (rowish_endsOk _ hra) he
      split
      · rfl
      · exact this
  unfold pageBody
  rcases mark_cases (processRows src sid pd exps).1 sid n exps.length with ⟨_, h2⟩ | ⟨_, _, h3⟩
  · rw [h2]
    exact hms [] rfl rfl
  · rw [h3]
    exact hms [Ev.mark sid n exps.length, Ev.save _] rfl rfl

theorem pageBody_rowsOf (src : Source) (sid : String) (n : Nat) (pd : ProgressData)
    (exps : List SummaryRec) :
    rowsOf (pageBody src sid n pd exps).2.1 =
      exps.map (fun e => summaryRow e (exceptToOption (src.detail e.detail_url)) sid) := by
  unfold pageBody
  dsimp only
  have h1 : rowsOf (Ev.fetch (Fetch.page sid n) ::
      ((processRows src sid pd exps).2 ++
       (mark_page_completed (processRows src sid pd exps).1 sid n exps.length).2)) =
      rowsOf ((processRows src sid pd exps).2 ++
       (mark_page_completed (processRows src sid pd exps).1 sid n exps.length).2) := by
    simp [rowsOf]
  rw [h1, rowsOf_append, processRows_rowsOf]
  rcases mark_cases (processRows src sid pd exps).1 sid n exps.length with ⟨_, h2⟩ | ⟨_, _, h3⟩
  · rw [h2]
    simp [rowsOf]
  · rw [h3]
    simp [rowsOf]

/-! ## processPage lemmas -/

theorem processPage_skip (src : Source) (lim : Option Nat) (pd : ProgressData)
    (sid : String) (n : Nat) (h : is_page_completed pd sid n = true) :
    processPage src lim pd sid n = (pd, [], false) := by
  simp [processPage, h]

theorem processPage_empty (src : Source) (lim : Option Nat) (pd : ProgressData)
    (sid : String) (n : Nat) (h : is_page_completed pd sid n = false)
    (he : src.listing sid n = []) :
    processPage src lim pd sid n = (pd, [Ev.fetch (Fetch.page sid n)], false) := by
  simp [processPage, h, he]

theorem processPage_full_none (src : Source) (pd : ProgressData)
    (sid : String) (n : Nat) (h : is_page_completed pd sid n = false)
    (he : src.listing sid n ≠ []) :
    processPage src none pd sid n = pageBody src sid n pd (src.listing sid n) := by
  have he2 : (src.listing sid n).isEmpty = false := by
    cases hl : src.listing sid n with
    | nil => exact absurd hl he
    | cons a l => rfl
  simp [processPage, h, he2]

theorem processPage_cases (src : Source) (lim : Option Nat) (pd : ProgressData)
    (sid : String) (n : Nat) :
    (is_page_completed pd sid n = true ∧ processPage src lim pd sid n = (pd, [], false)) ∨
    (is_page_completed pd sid n = false ∧
      (processPage src lim pd sid n = (pd, [Ev.fetch (Fetch.page sid n)], false) ∨
       processPage src lim pd sid n = (pd, [Ev.fetch (Fetch.page sid n)], true) ∨
       (src.listing sid n ≠ [] ∧
        ∃ exps2, processPage src lim pd sid n = pageBody src sid n pd exps2))) := by
  cases h : is_page_completed pd sid n with
  | true => exact Or.inl ⟨rfl, processPage_skip src lim pd sid n h⟩
  | false =>
    refine Or.inr ⟨rfl, ?_⟩
    cases he : (src.listing sid n).isEmpty with
    | true =>
      left
      have : src.listing sid n = [] := List.isEmpty_iff.mp he
      exact processPage_empty src lim pd sid n h this
    | false =>
      have hne : src.listing sid n ≠ [] := by
        intro hc
        rw [hc] at he
        cases he
      cases lim with
      | none =>
        right
        right
        exact ⟨hne, src.listing sid n, by simp [processPage, h, he]⟩
      | some k =>
        cases k with
        | zero =>
          right
          right
          exact ⟨hne, src.listing sid n, by simp [processPage, h, he]⟩
        | succ k2 =>
          by_cases hn : 2 < n
          · right
            left
            simp [processPage, h, he, hn]
          · right
            right
            exact ⟨hne, (src.listing sid n).take (k2 + 1), by simp [processPage, h, he, hn]⟩

theorem processPage_ext (src : Source) (lim : Option Nat) (pd : ProgressData)
    (sid : String) (n : Nat) :
    ∃ ext, (processPage src lim pd sid n).1.completed_pages = pd.completed_pages ++ ext := by
  rcases processPage_cases src lim pd sid n with ⟨_, h2⟩ | ⟨_, h2 | h2 | ⟨_, exps2, h2⟩⟩
  · exact ⟨[], by rw [h2]; simp⟩
  · exact ⟨[], by rw [h2]; simp⟩
  · exact ⟨[], by rw [h2]; simp⟩
  · rw [h2]
    exact pageBody_ext src sid n pd exps2

theorem completed_mono_of_ext (pd pd2 : ProgressData) (s : String) (m : Nat)
    (hext : ∃ ext, pd2.completed_pages = pd.completed_pages ++ ext)
    (h : is_page_completed pd s m = true) : is_page_completed pd2 s m = true := by
  obtain ⟨ext, hx⟩ := hext
  rw [is_page_completed_iff] at h ⊢
  rw [hx]
  exact List.mem_append_left _ h

theorem processPage_countMarks (src : Source) (lim : Option Nat) (pd : ProgressData)
    (sid : String) (n : Nat) (s : String) (m : Nat) :
    (is_page_completed pd s m = true →
      countMarks (processPage src lim pd sid n).2.1 s m = 0) ∧
    countMarks (processPage src lim pd sid n).2.1 s m ≤ 1 ∧
    (1 ≤ countMarks (processPage src lim pd sid n).2.1 s m →
      is_page_completed (processPage src lim pd sid n).1 s m = true) := by
  rcases processPage_cases src lim pd sid n with ⟨_, h2⟩ | ⟨_, h2 | h2 | ⟨_, exps2, h2⟩⟩ <;>
    rw [h2]
  · exact ⟨fun _ => rfl, by simp [countMarks], fun hge => absurd hge (by simp [countMarks])⟩
  · refine ⟨fun _ => ?_, ?_, fun hge => ?_⟩
    · simp [countMarks, List.countP_cons, isMarkOf]
    · simp [countMarks, List.countP_cons, isMarkOf]
    · simp [countMarks, List.countP_cons, isMarkOf] at hge
  · refine ⟨fun _ => ?_, ?_, fun hge => ?_⟩
    · simp [countMarks, List.countP_cons, isMarkOf]
    · simp [countMarks, List.countP_cons, isMarkOf]
    · simp [countMarks, List.countP_cons, isMarkOf] at hge
  · exact pageBody_countMarks src sid n pd exps2 s m

theorem processPage_no_page_fetch (src : Source) (lim : Option Nat) (pd : ProgressData)
    (sid : String) (n : Nat) (s : String) (m : Nat)
    (hmem : Ev.fetch (Fetch.page s m) ∈ (processPage src lim pd sid n).2.1) :
    s = sid ∧ m = n ∧ is_page_completed pd s m = false := by
  rcases processPage_cases src lim pd sid n with ⟨_, h2⟩ | ⟨hc, h2 | h2 | ⟨_, exps2, h2⟩⟩ <;>
    rw [h2] at hmem
  · cases hmem
  · rcases List.mem_cons.mp hmem with heq | h3
    · injection heq with h4
      injection h4 with h5 h6
      subst h5
      subst h6
      exact ⟨rfl, rfl, hc⟩
    · cases h3
  · rcases List.mem_cons.mp hmem with heq | h3
    · injection heq with h4
      injection h4 with h5 h6
      subst h5
      subst h6
      exact ⟨rfl, rfl, hc⟩
    · cases h3
  · obtain ⟨h5, h6⟩ := pageBody_no_page_fetch src sid n pd exps2 s m hmem
    subst h5
    subst h6
    exact ⟨rfl, rfl, hc⟩

theorem processPage_wf (src : Source) (lim : Option Nat) (pd : ProgressData)
    (sid : String) (n : Nat) :
    marksSaved (processPage src lim pd sid n).2.1 = true ∧
    endsOk (processPage src lim pd sid n).2.1 = true := by
  rcases processPage_cases src lim pd sid n with ⟨_, h2⟩ | ⟨_, h2 | h2 | ⟨_, exps2, h2⟩⟩ <;>
    rw [h2]
  · exact ⟨rfl, rfl⟩
  · exact ⟨rfl, rfl⟩
  · exact ⟨rfl, rfl⟩
  · exact pageBody_wf src sid n pd exps2

theorem processPage_rowsOf_skip (src : Source) (lim : Option Nat) (pd : ProgressData)
    (sid : String) (n : Nat)
    (h : is_page_completed pd sid n = true ∨ src.listing sid n = []) :
    rowsOf (processPage src lim pd sid n).2.1 = [] := by
  rcases processPage_cases src lim pd sid n with ⟨_, h2⟩ | ⟨hc, h2 | h2 | ⟨hne, exps2, h2⟩⟩ <;>
    rw [h2]
  · rfl
  · rfl
  · rfl
  · rcases h with h | h
    · rw [hc] at h
      cases h
    · exact absurd h hne

/-! ## runPages lemmas -/

theorem processPage_none_no_break (src : Source) (pd : ProgressData)
    (sid : String) (n : Nat) : (processPage src none pd sid n).2.2 = false := by
  unfold processPage
  split
  · rfl
  · split
    · rfl
    · rfl

theorem runPages_ext (src : Source) (lim : Option Nat) (sid : String) (pages : List Nat) :
    ∀ pd, ∃ ext,
      (runPages src lim sid pd pages).1.completed_pages = pd.completed_pages ++ ext := by
  induction pages with
  | nil => exact fun pd => ⟨[], by simp [runPages]⟩
  | cons n rest ih =>
    intro pd
    obtain ⟨e1, h1⟩ := processPage_ext src lim pd sid n
    cases hb : (processPage src lim pd sid n).2.2 with
    | true => exact ⟨e1, by simp [runPages, hb, h1]⟩
    | false =>
      obtain ⟨e2, h2⟩ := ih (processPage src lim pd sid n).1
      refine ⟨e1 ++ e2, ?_⟩
      simp only [runPages, hb, if_false, Bool.false_eq_true]
      rw [h2, h1, List.append_assoc]

theorem runPages_countMarks (src : Source) (lim : Option Nat) (sid : String)
    (pages : List Nat) : ∀ pd (s : String) (m : Nat),
    (is_page_completed pd s m = true →
      countMarks (runPages src lim sid pd pages).2 s m = 0) ∧
    countMarks (runPages src lim sid pd pages).2 s m ≤ 1 ∧
    (1 ≤ countMarks (runPages src lim sid pd pages).2 s m →
      is_page_completed (runPages src lim sid pd pages).1 s m = true) := by
  induction pages with
  | nil =>
    intro pd s m
    refine ⟨fun _ => rfl, by simp [runPages, countMarks], fun hge => ?_⟩
    simp [runPages, countMarks] at hge
  | cons n rest ih =>
    intro pd s m
    obtain ⟨pa, pb, pc⟩ := processPage_countMarks src lim pd sid n s m
    cases hb : (processPage src lim pd sid n).2.2 with
    | true =>
      simp only [runPages, hb, if_true]
      exact ⟨pa, pb, pc⟩
    | false =>
      obtain ⟨ra, rb, rc⟩ := ih (processPage src lim pd sid n).1 s m
      simp only [runPages, hb, if_false, Bool.false_eq_true, countMarks_append]
      refine ⟨fun hcomp => ?_, ?_, fun hge => ?_⟩
      · rw [pa hcomp, ra (completed_mono_of_ext _ _ _ _ (processPage_ext src lim pd sid n) hcomp)]
      · rcases Nat.le_one_iff_eq_zero_or_eq_one.mp pb with h0 | h1
        · rw [h0]
          simpa using rb
        · rw [h1, ra (pc (by rw [h1]))]
      · by_cases hrest : 1 ≤ countMarks (runPages src lim sid (processPage src lim pd sid n).1 rest).2 s m
        · exact rc hrest
        · have hp1 : 1 ≤ countMarks (processPage src lim pd sid n).2.1 s m := by omega
          exact completed_mono_of_ext _ _ _ _
            (runPages_ext src lim sid rest (processPage src lim pd sid n).1) (pc hp1)

theorem runPages_no_page_fetch (src : Source) (lim : Option Nat) (sid : String)
    (pages : List Nat) : ∀ pd (s : String) (m : Nat),
    is_page_completed pd s m = true →
    Ev.fetch (Fetch.page s m) ∉ (runPages src lim sid pd pages).2 := by
  induction pages with
  | nil =>
    intro pd s m _ hmem
    simp [runPages] at hmem
  | cons n rest ih =>
    intro pd s m hcomp hmem
    cases hb : (processPage src lim pd sid n).2.2 with
    | true =>
      simp only [runPages, hb, if_true] at hmem
      obtain ⟨_, _, hfalse⟩ := processPage_no_page_fetch src lim pd sid n s m hmem
      rw [hcomp] at hfalse
      cases hfalse
    | false =>
      simp only [runPages, hb, if_false, Bool.false_eq_true] at hmem
      rcases List.mem_append.mp hmem with h | h
      · obtain ⟨_, _, hfalse⟩ := processPage_no_page_fetch src lim pd sid n s m h
        rw [hcomp] at hfalse
        cases hfalse
      · exact ih (processPage src lim pd sid n).1 s m
          (completed_mono_of_ext _ _ _ _ (processPage_ext src lim pd sid n) hcomp) h

theorem runPages_wf (src : Source) (lim : Option Nat) (sid : String)
    (pages : List Nat) : ∀ pd,
    marksSaved (runPages src lim sid pd pages).2 = true ∧
    endsOk (runPages src lim sid pd pages).2 = true := by
  induction pages with
  | nil => exact fun pd => ⟨rfl, rfl⟩
  | cons n rest ih =>
    intro pd
    obtain ⟨pm, pe⟩ := processPage_wf src lim pd sid n
    cases hb : (processPage src lim pd sid n).2.2 with
    | true =>
      simp only [runPages, hb, if_true]
      exact ⟨pm, pe⟩
    | false =>
      obtain ⟨rm, re⟩ := ih (processPage src lim pd sid n).1
      simp only [runPages, hb, if_false, Bool.false_eq_true]
      exact ⟨marksSaved_append _ _ pm pe rm, endsOk_append _ _ pe re⟩

theorem runPages_rowsOf_skip (src : Source) (lim : Option Nat) (sid : String)
    (pages : List Nat) : ∀ pd,
    (∀ m ∈ pages, is_page_completed pd sid m = true ∨ src.listing sid m = []) →
    rowsOf (runPages src lim sid pd pages).2 = [] := by
  induction pages with
  | nil => exact fun pd _ => rfl
  | cons n rest ih =>
    intro pd hall
    have hn := hall n (List.mem_cons_self n rest)
    have hrows : rowsOf (processPage src lim pd sid n).2.1 = [] :=
      processPage_rowsOf_skip src lim pd sid n hn
    cases hb : (processPage src lim pd sid n).2.2 with
    | true =>
      simp only [runPages, hb, if_true]
      exact hrows
    | false =>
      simp only [runPages, hb, if_false, Bool.false_eq_true, rowsOf_append, hrows,
        List.nil_append]
      refine ih (processPage src lim pd sid n).1 (fun m hm => ?_)
      rcases hall m (List.mem_cons_of_mem n hm) with h | h
      · exact Or.inl (completed_mono_of_ext _ _ _ _ (processPage_ext src lim pd sid n) h)
      · exact Or.inr h

theorem runPages_completion (src : Source) (sid : String) (pages : List Nat) :
    ∀ pd, ∀ m ∈ pages, src.listing sid m ≠ [] →
    is_page_completed (runPages src none sid pd pages).1 sid m = true := by
  induction pages with
  | nil =>
    intro pd m hm
    cases hm
  | cons n rest ih =>
    intro pd m hm hne
    have hb := processPage_none_no_break src pd sid n
    rcases List.mem_cons.mp hm with heq | hmem
    · subst heq
      cases hc : is_page_completed pd sid m with
      | true =>
        have h1 : is_page_completed (processPage src none pd sid m).1 sid m = true :=
          completed_mono_of_ext _ _ _ _ (processPage_ext src none pd sid m) hc
        simp only [runPages, hb, if_false, Bool.false_eq_true]
        exact completed_mono_of_ext _ _ _ _
          (runPages_ext src none sid rest (processPage src none pd sid m).1) h1
      | false =>
        have heq2 := processPage_full_none src pd sid m hc hne
        have h1 : is_page_completed (processPage src none pd sid m).1 sid m = true := by
          rw [heq2]
          unfold pageBody
          rcases mark_cases (processRows src sid pd (src.listing sid m)).1 sid m
              (src.listing sid m).length with ⟨hx, _⟩ | ⟨_, hx, _⟩
          · rw [processRows_completed] at hx
            rw [is_page_completed] at hc
            rw [hc] at hx
            cases hx
          · rw [is_page_completed_iff, hx, processRows_completed]
            simp
        simp only [runPages, hb, if_false, Bool.false_eq_true]
        exact completed_mono_of_ext _ _ _ _
          (runPages_ext src none sid rest (processPage src none pd sid m).1) h1
    · simp only [runPages, hb, if_false, Bool.false_eq_true]
      exact ih (processPage src none pd sid n).1 m hmem hne

/-! ## runCategory and runCrawl lemmas -/

theorem runCategory_ext (src : Source) (lim : Option Nat) (pd : ProgressData)
    (sid : String) : ∃ ext,
    (runCategory src lim pd sid).1.completed_pages = pd.completed_pages ++ ext :=
  runPages_ext src lim sid (List.range' 1 (src.totalPages sid)) pd

theorem runCategory_countMarks (src : Source) (lim : Option Nat) (pd : ProgressData)
    (sid : String) (s : String) (m : Nat) :
    (is_page_completed pd s m = true →
      countMarks (runCategory src lim pd sid).2 s m = 0) ∧
    countMarks (runCategory src lim pd sid).2 s m ≤ 1 ∧
    (1 ≤ countMarks (runCategory src lim pd sid).2 s m →
      is_page_completed (runCategory src lim pd sid).1 s m = true) := by
  have hbase : countMarks (runCategory src lim pd sid).2 s m =
      countMarks (runPages src lim sid pd (List.range' 1 (src.totalPages sid))).2 s m := by
    simp [runCategory, countMarks, List.countP_cons, isMarkOf]
  obtain ⟨ra, rb, rc⟩ :=
    runPages_countMarks src lim sid (List.range' 1 (src.totalPages sid)) pd s m
  rw [hbase]
  exact ⟨ra, rb, rc⟩

theorem runCategory_no_page_fetch (src : Source) (lim : Option Nat) (pd : ProgressData)
    (sid : String) (s : String) (m : Nat) (hcomp : is_page_completed pd s m = true) :
    Ev.fetch (Fetch.page s m) ∉ (runCategory src lim pd sid).2 := by
  intro hmem
  unfold runCategory at hmem
  rcases List.mem_cons.mp hmem with heq | h
  · injection heq with h2
    cases h2
  · exact runPages_no_page_fetch src lim sid _ pd s m hcomp h

theorem runCategory_wf (src : Source) (lim : Option Nat) (pd : ProgressData)
    (sid : String) :
    marksSaved (runCategory src lim pd sid).2 = true ∧
    endsOk (runCategory src lim pd sid).2 = true := by
  obtain ⟨rm, re⟩ := runPages_wf src lim sid (List.range' 1 (src.totalPages sid)) pd
  unfold runCategory
  constructor
  · rw [marksSaved_cons_of_not_mark _ _ (by rfl)]
    exact rm
  · rw [endsOk_cons]
    split
    · rfl
    · exact re

theorem runCategory_rowsOf_skip (src : Source) (lim : Option Nat) (pd : ProgressData)
    (sid : String)
    (hall : ∀ m, 1 ≤ m → m ≤ src.totalPages sid →
      is_page_completed pd sid m = true ∨ src.listing sid m = []) :
    rowsOf (runCategory src lim pd sid).2 = [] := by
  unfold runCategory
  have h1 : rowsOf (Ev.fetch (Fetch.base sid) ::
      (runPages src lim sid pd (List.range' 1 (src.totalPages sid))).2) =
      rowsOf (runPages src lim sid pd (List.range' 1 (src.totalPages sid))).2 := by
    simp [rowsOf]
  rw [h1]
  refine runPages_rowsOf_skip src lim sid _ pd (fun m hm => ?_)
  have := List.mem_range'_1.mp hm
  exact hall m this.1 (by omega)

theorem runCategory_completion (src : Source) (pd : ProgressData) (sid : String)
    (m : Nat) (h1 : 1 ≤ m) (h2 : m ≤ src.totalPages sid)
    (hne : src.listing sid m ≠ []) :
    is_page_completed (runCategory src none pd sid).1 sid m = true := by
  refine runPages_completion src sid (List.range' 1 (src.totalPages sid)) pd m ?_ hne
  exact List.mem_range'_1.mpr ⟨h1, by omega⟩

theorem runCrawl_ext (src : Source) (lim : Option Nat) (sids : List String) :
    ∀ pd, ∃ ext,
      (runCrawl src lim pd sids).1.completed_pages = pd.completed_pages ++ ext := by
  induction sids with
  | nil => exact fun pd => ⟨[], by simp [runCrawl]⟩
  | cons sid rest ih =>
    intro pd
    obtain ⟨e1, h1⟩ := runCategory_ext src lim pd sid
    obtain ⟨e2, h2⟩ := ih (runCategory src lim pd sid).1
    refine ⟨e1 ++ e2, ?_⟩
    simp only [runCrawl]
    rw [h2, h1, List.append_assoc]

theorem runCrawl_countMarks (src : Source) (lim : Option Nat) (sids : List String) :
    ∀ pd (s : String) (m : Nat),
    (is_page_completed pd s m = true → countMarks (runCrawl src lim pd sids).2 s m = 0) ∧
    countMarks (runCrawl src lim pd sids).2 s m ≤ 1 ∧
    (1 ≤ countMarks (runCrawl src lim pd sids).2 s m →
      is_page_completed (runCrawl src lim pd sids).1 s m = true) := by
  induction sids with
  | nil =>
    intro pd s m
    refine ⟨fun _ => rfl, by simp [runCrawl, countMarks], fun hge => ?_⟩
    simp [runCrawl, countMarks] at hge
  | cons sid rest ih =>
    intro pd s m
    obtain ⟨pa, pb, pc⟩ := runCategory_countMarks src lim pd sid s m
    obtain ⟨ra, rb, rc⟩ := ih (runCategory src lim pd sid).1 s m
    simp only [runCrawl, countMarks_append]
    refine ⟨fun hcomp => ?_, ?_, fun hge => ?_⟩
    · rw [pa hcomp, ra (completed_mono_of_ext _ _ _ _ (runCategory_ext src lim pd sid) hcomp)]
    · rcases Nat.le_one_iff_eq_zero_or_eq_one.mp pb with h0 | h1
      · rw [h0]
        simpa using rb
      · rw [h1, ra (pc (by rw [h1]))]
    · by_cases hrest : 1 ≤ countMarks (runCrawl src lim (runCategory src lim pd sid).1 rest).2 s m
      · exact rc hrest
      · have hp1 : 1 ≤ countMarks (runCategory src lim pd sid).2 s m := by omega
        exact completed_mono_of_ext _ _ _ _
          (runCrawl_ext src lim rest (runCategory src lim pd sid).1) (pc hp1)

theorem runCrawl_no_page_fetch (src : Source) (lim : Option Nat) (sids : List String) :
    ∀ pd (s : String) (m : Nat), is_page_completed pd s m = true →
    Ev.fetch (Fetch.page s m) ∉ (runCrawl src lim pd sids).2 := by
  induction sids with
  | nil =>
    intro pd s m _ hmem
    simp [runCrawl] at hmem
  | cons sid rest ih =>
    intro pd s m hcomp hmem
    simp only [runCrawl] at hmem
    rcases List.mem_append.mp hmem with h | h
    · exact runCategory_no_page_fetch src lim pd sid s m hcomp h
    · exact ih (runCategory src lim pd sid).1 s m
        (completed_mono_of_ext _ _ _ _ (runCategory_ext src lim pd sid) hcomp) h

theorem runCrawl_wf (src : Source) (lim : Option Nat) (sids : List String) :
    ∀ pd, marksSaved (runCrawl src lim pd sids).2 = true ∧
      endsOk (runCrawl src lim pd sids).2 = true := by
  induction sids with
  | nil => exact fun pd => ⟨rfl, rfl⟩
  | cons sid rest ih =>
    intro pd
    obtain ⟨pm, pe⟩ := runCategory_wf src lim pd sid
    obtain ⟨rm, re⟩ := ih (runCategory src lim pd sid).1
    simp only [runCrawl]
    exact ⟨marksSaved_append _ _ pm pe rm, endsOk_append _ _ pe re⟩

theorem runCrawl_rowsOf_skip (src : Source) (lim : Option Nat) (sids : List String) :
    ∀ pd,
    (∀ sid ∈ sids, ∀ m, 1 ≤ m → m ≤ src.totalPages sid →
      is_page_completed pd sid m = true ∨ src.listing sid m = []) →
    rowsOf (runCrawl src lim pd sids).2 = [] := by
  induction sids with
  | nil => exact fun pd _ => rfl
  | cons sid rest ih =>
    intro pd hall
    simp only [runCrawl, rowsOf_append]
    rw [runCategory_rowsOf_skip src lim pd sid (hall sid (List.mem_cons_self sid rest))]
    rw [List.nil_append]
    refine ih (runCategory src lim pd sid).1 (fun sid2 hs m hm1 hm2 => ?_)
    rcases hall sid2 (List.mem_cons_of_mem sid hs) m hm1 hm2 with h | h
    · exact Or.inl (completed_mono_of_ext _ _ _ _ (runCategory_ext src lim pd sid) h)
    · exact Or.inr h

theorem runCrawl_completion (src : Source) (sids : List String) :
    ∀ pd, ∀ sid ∈ sids, ∀ m, 1 ≤ m → m ≤ src.totalPages sid →
    src.listing sid m ≠ [] →
    is_page_completed (runCrawl src none pd sids).1 sid m = true := by
  induction sids with
  | nil =>
    intro pd sid hs
    cases hs
  | cons sid2 rest ih =>
    intro pd sid hs m hm1 hm2 hne
    simp only [runCrawl]
    rcases List.mem_cons.mp hs with heq | hmem
    · subst heq
      exact completed_mono_of_ext _ _ _ _
        (runCrawl_ext src none rest (runCategory src none pd sid).1)
        (runCategory_completion src pd sid m hm1 hm2 hne)
    · exact ih (runCategory src none pd sid2).1 sid hmem m hm1 hm2 hne

/-- After a full run with no row cap, every page unit whose listing is
nonempty is checkpointed; a second run therefore accumulates no output rows
at all. -/
theorem runCrawl_twice_rows (src : Source) (sids : List String) (pd0 : ProgressData) :
    rowsOf (runCrawl src none (runCrawl src none pd0 sids).1 sids).2 = [] := by
  refine runCrawl_rowsOf_skip src none sids (runCrawl src none pd0 sids).1
    (fun sid hs m hm1 hm2 => ?_)
  by_cases hne : src.listing sid m = []
  · exact Or.inr hne
  · exact Or.inl (runCrawl_completion src sids pd0 sid hs m hm1 hm2 hne)

/-! ## Narrative-collapse properties -/

/-- The text contains three consecutive newline characters somewhere. -/
def hasTripleNewline (l : List Char) : Bool :=
  l.tails.any (fun t => decide (t.take 3 = ['\n', '\n', '\n']))

theorem hasTriple_cons (c : Char) (l : List Char) :
    hasTripleNewline (c :: l) =
      (decide ((c :: l).take 3 = ['\n', '\n', '\n']) || hasTripleNewline l) := by
  simp [hasTripleNewline]

theorem hasTriple_suffix (a l : List Char) (h : hasTripleNewline (a ++ l) = false) :
    hasTripleNewline l = false := by
  induction a with
  | nil => exact h
  | cons c cs ih =>
    rw [List.cons_append, hasTriple_cons, Bool.or_eq_false_iff] at h
    exact ih h.2

theorem hasTriple_emit (n : Nat) : hasTripleNewline (emitNewlines n) = false := by
  unfold emitNewlines
  by_cases h : 3 ≤ n
  · simp only [h, if_true]
    decide
  · have h2 : n < 3 := by omega
    interval_cases n <;> decide

theorem hasTriple_emit_append (n : Nat) (c : Char) (hc : ¬ c = '\n') (l : List Char) :
    hasTripleNewline (emitNewlines n ++ c :: l) = hasTripleNewline (c :: l) := by
  unfold emitNewlines
  by_cases h : 3 ≤ n
  · simp only [h, if_true]
    show hasTripleNewline ('\n' :: '\n' :: c :: l) = _
    rw [hasTriple_cons, hasTriple_cons]
    simp [hc]
  · have h2 : n < 3 := by omega
    interval_cases n
    · simp
    · simp only [h, if_false]
      show hasTripleNewline ('\n' :: c :: l) = _
      rw [hasTriple_cons]
      simp [hc]
    · simp only [h, if_false]
      show hasTripleNewline ('\n' :: '\n' :: c :: l) = _
      rw [hasTriple_cons, hasTriple_cons]
      simp [hc]

theorem collapseAux_no_triple (l : List Char) :
    ∀ n, hasTripleNewline (collapseAux n l) = false := by
  induction l with
  | nil => exact fun n => hasTriple_emit n
  | cons c cs ih =>
    intro n
    by_cases hc : c = '\n'
    · subst hc
      simp only [collapseAux, if_pos rfl]
      exact ih (n + 1)
    · simp only [collapseAux, if_neg hc]
      rw [hasTriple_emit_append n c hc, hasTriple_cons]
      have h1 : decide ((c :: collapseAux 0 cs).take 3 = ['\n', '\n', '\n']) = false := by
        simp [hc]
      rw [h1, ih 0]
      rfl

theorem collapseAux_id (l : List Char) : ∀ n, n ≤ 2 →
    hasTripleNewline (List.replicate n '\n' ++ l) = false →
    collapseAux n l = List.replicate n '\n' ++ l := by
  induction l with
  | nil =>
    intro n hn _
    have h3 : ¬ 3 ≤ n := by omega
    simp [collapseAux, emitNewlines, h3]
  | cons c cs ih =>
    intro n hn htrip
    by_cases hc : c = '\n'
    · subst hc
      have heq : List.replicate n '\n' ++ '\n' :: cs = List.replicate (n + 1) '\n' ++ cs := by
        rw [List.replicate_succ']
        simp
    
      have hn1 : n + 1 ≤ 2 := by
        rcases Nat.lt_or_ge n 2 with h | h
        · omega
        · exfalso
          have hn2 : n = 2 := by omega
          subst hn2
          have : List.replicate 2 '\n' ++ '\n' :: cs = '\n' :: '\n' :: '\n' :: cs := rfl
          rw [this, hasTriple_cons] at htrip
          simp at htrip
      simp only [collapseAux, if_pos rfl]
      rw [ih (n + 1) hn1 (by rw [← heq]; exact htrip), heq]
      simp
    · have h3 : ¬ 3 ≤ n := by omega
      simp only [collapseAux, if_neg hc]
      have hemit : emitNewlines n = List.replicate n '\n' := by
        simp [emitNewlines, h3]
      have htl : hasTripleNewline cs = false := by
        have h4 := hasTriple_suffix (List.replicate n '\n') _ htrip
        rw [hasTriple_cons, Bool.or_eq_false_iff] at h4
        exact h4.2
      rw [hemit, ih 0 (by omega) (by simpa using htl)]
      rfl

theorem collapseNewlines_no_triple (s : String) :
    hasTripleNewline (collapseNewlines s).data = false :=
  collapseAux_no_triple s.data 0

theorem collapseNewlines_id (s : String) (h : hasTripleNewline s.data = false) :
    collapseNewlines s = s := by
  unfold collapseNewlines
  rw [collapseAux_id s.data 0 (by omega) (by simpa using h)]
  simp

/-! ## Spec-reading variants for refinement comparison -/

/-- Modelled from the spec: the experience-date scan as the spec states it
("first match wins, scan stops there"): the scan commits to the FIRST
keyword-matching cell and returns its parse result, successful or not. -/
def scanExperienceDateSpecWords (dparse : String → Option Date) : List String → Option Date
  | [] => none
  | c :: rest =>
    if keywordMatch c then
      match extractAfterColon c with
      | some ds => parse_dates dparse ds
      | none => none
    else scanExperienceDateSpecWords dparse rest

/-- Split on newline characters (Python `s.split('\n')` over char lists). -/
def splitNl : List Char → List (List Char)
  | [] => [[]]
  | c :: rest =>
    if c = '\n' then [] :: splitNl rest
    else
      match splitNl rest with
      | h :: t => (c :: h) :: t
      | [] => [[c]]

/-- Rejoin lines with newline characters. -/
def joinNl : List (List Char) → List Char
  | [] => []
  | [l] => l
  | l :: rest => l ++ '\n' :: joinNl rest

/-- Collapse every run of 3 or more consecutive empty lines to exactly one
empty line (`n` counts the pending run of empty lines). -/
def collapseEmptyAux : Nat → List (List Char) → List (List Char)
  | n, [] => List.replicate (if 3 ≤ n then 1 else n) []
  | n, l :: rest =>
    if l = [] then collapseEmptyAux (n + 1) rest
    else List.replicate (if 3 ≤ n then 1 else n) [] ++ l :: collapseEmptyAux 0 rest

/-- Modelled from the spec: the blank-line collapse as the claim states it
("collapsing every run of 3 or more consecutive blank lines to exactly one
blank line"), reading a blank line as an empty line of the text. -/
def collapseBlankLinesSpecWords (s : String) : String :=
  String.mk (joinNl (collapseEmptyAux 0 (splitNl s.data)))

example : collapseBlankLinesSpecWords "a\n\n\nb" = "a\n\n\nb" := by decide
example : collapseBlankLinesSpecWords "a\n\n\n\n\nb" = "a\n\nb" := by decide
example : collapseNewlines "a\n\n\nb" = "a\n\nb" := by decide
example : scanExperienceDateSpecWords (fun _ => none)
    ["Experience: gibberish", "Exp Year: 1984"] = none := by decide

/-! ## Character-class lemmas -/

theorem toLower_not_upper (c : Char) : (Char.toLower c).isUpper = false := by
  have hrfl : ∀ d : Char, d.isUpper = (decide (65 ≤ d.toNat) && decide (d.toNat ≤ 90)) :=
    fun d => rfl
  unfold Char.toLower
  dsimp only
  split <;> rename_i h
  · obtain ⟨h1, h2⟩ := h
    have hvalid : Nat.isValidChar (c.toNat + 32) := Or.inl (by omega)
    have hofnat : Char.ofNat (c.toNat + 32) = Char.ofNatAux (c.toNat + 32) hvalid := by
      unfold Char.ofNat
      rw [dif_pos hvalid]
    have htoNat : (Char.ofNatAux (c.toNat + 32) hvalid).toNat = c.toNat + 32 := rfl
    rw [hofnat, hrfl, htoNat]
    have h3 : ¬ (c.toNat + 32 ≤ 90) := by omega
    simp [h3]
  · rw [hrfl]
    rw [not_and_or] at h
    rcases h with h | h
    · have h3 : ¬ (65 ≤ c.toNat) := by omega
      simp [h3]
    · have h3 : ¬ (c.toNat ≤ 90) := by omega
      simp [h3]

theorem isDigit_toNat (c : Char) (h : c.isDigit = true) :
    48 ≤ c.toNat ∧ c.toNat ≤ 57 := by
  have hrfl : c.isDigit = (decide (48 ≤ c.toNat) && decide (c.toNat ≤ 57)) := rfl
  rw [hrfl, Bool.and_eq_true, decide_eq_true_eq, decide_eq_true_eq] at h
  exact h

/-! ## `parse_weight` support lemmas -/

theorem reWeightMatch_some (l : List Char) (d w : List Char)
    (h : reWeightMatch l = some (d, w)) :
    d = l.takeWhile isDigitDot ∧ d ≠ [] ∧
    w = ((l.drop d.length).dropWhile isPyWhitespace).takeWhile Char.isAlpha ∧ w ≠ [] := by
  unfold reWeightMatch at h
  by_cases h1 : (l.takeWhile isDigitDot).isEmpty = true
  · rw [if_pos h1] at h
    cases h
  · rw [if_neg h1] at h
    by_cases h2 : (((l.drop (l.takeWhile isDigitDot).length).dropWhile
        isPyWhitespace).takeWhile Char.isAlpha).isEmpty = true
    · rw [if_pos h2] at h
      cases h
    · rw [if_neg h2] at h
      injection h with h3
      injection h3 with hd hw
      subst hd
      subst hw
      refine ⟨rfl, ?_, rfl, ?_⟩
      · intro hc
        rw [hc] at h1
        exact h1 rfl
      · intro hc
        rw [hc] at h2
        exact h2 rfl

theorem parse_weight_none_iff (s : String) :
    (parse_weight s).1 = none ↔ (parse_weight s).2 = none := by
  unfold parse_weight
  split
  · simp
  · rcases hr : reWeightMatch (pyStrip s).data with _ | ⟨d, w⟩
    · simp [hr]
    · rcases hf : parseFloatDigits d with _ | v
      · simp [hr, hf]
      · simp [hr, hf]

theorem parse_weight_some (s : String) (v : ℚ) (u : String)
    (h : parse_weight s = (some v, some u)) :
    (∃ digits rest, (pyStrip s).data = digits ++ rest ∧ digits ≠ [] ∧
      (∀ c ∈ digits, isDigitDot c = true) ∧ parseFloatDigits digits = some v) ∧
    u.data.getLast? ≠ some 's' ∧ (∀ c ∈ u.data, c.isUpper = false) := by
  unfold parse_weight at h
  split at h
  · cases h
  · rcases hr : reWeightMatch (pyStrip s).data with _ | ⟨d, w⟩
    · simp [hr] at h
    · rcases hf : parseFloatDigits d with _ | v0
      · simp [hr, hf] at h
      · simp [hr, hf] at h
        obtain ⟨h1, h2⟩ := h
        subst h1
        obtain ⟨hd, hdne, hw, hwne⟩ := reWeightMatch_some _ _ _ hr
        refine ⟨⟨d, (pyStrip s).data.dropWhile isDigitDot, ?_, hdne, ?_, hf⟩, ?_, ?_⟩
        · rw [hd]
          exact (List.takeWhile_append_dropWhile isDigitDot (pyStrip s).data).symm
        · intro c hc
          rw [hd] at hc
          exact List.mem_takeWhile_imp hc
        · rw [← h2]
          rw [show (String.mk (((w.map Char.toLower).reverse.dropWhile
              (fun c => c == 's')).reverse)).data =
            ((w.map Char.toLower).reverse.dropWhile (fun c => c == 's')).reverse from rfl]
          rw [List.getLast?_reverse]
          intro hc
          have h3 := List.head?_dropWhile_not (fun c => c == 's') (w.map Char.toLower).reverse
          rw [hc] at h3
          simp at h3
        · intro c hc
          rw [← h2] at hc
          have hc2 : c ∈ (w.map Char.toLower).reverse.dropWhile (fun c => c == 's') := by
            simpa using hc
          have hc3 : c ∈ (w.map Char.toLower).reverse :=
            (List.dropWhile_sublist _).mem hc2
          have hc4 : c ∈ w.map Char.toLower := by simpa using hc3
          obtain ⟨c0, _, hc5⟩ := List.mem_map.mp hc4
          rw [← hc5]
          exact toLower_not_upper c0

/-! ## `parse_dates` support lemmas -/

theorem yearAt_sound (l : List Char) (y : Nat) (h : yearAt l = some y) :
    1900 ≤ y ∧ y ≤ 2099 := by
  rcases l with _ | ⟨c1, l1⟩
  · simp [yearAt] at h
  rcases l1 with _ | ⟨c2, l2⟩
  · simp [yearAt] at h
  rcases l2 with _ | ⟨c3, l3⟩
  · simp [yearAt] at h
  rcases l3 with _ | ⟨c4, rest⟩
  · simp [yearAt] at h
  · simp only [yearAt] at h
    split at h
    · rename_i hcond
      injection h with h1
      simp only [Bool.and_eq_true, Bool.or_eq_true, beq_iff_eq] at hcond
      obtain ⟨⟨⟨h12, h3d⟩, h4d⟩, _⟩ := hcond
      obtain ⟨h3a, h3b⟩ := isDigit_toNat c3 h3d
      obtain ⟨h4a, h4b⟩ := isDigit_toNat c4 h4d
      rcases h12 with ⟨hc1, hc2⟩ | ⟨hc1, hc2⟩ <;> subst hc1 <;> subst hc2 <;>
        rw [← h1] <;> unfold digitVal <;> constructor <;>
        simp only [show ('1' : Char).toNat = 49 from rfl,
          show ('9' : Char).toNat = 57 from rfl, show ('2' : Char).toNat = 50 from rfl,
          show ('0' : Char).toNat = 48 from rfl] <;> omega
    · cases h

theorem searchYearAux_sound (l : List Char) :
    ∀ prev y, searchYearAux prev l = some y → 1900 ≤ y ∧ y ≤ 2099 := by
  induction l with
  | nil =>
    intro prev y h
    cases h
  | cons c rest ih =>
    intro prev y h
    unfold searchYearAux at h
    split at h
    · rcases hy : yearAt (c :: rest) with _ | y2 <;> rw [hy] at h
      · exact ih (some c) y h
      · injection h with h1
        subst h1
        exact yearAt_sound _ _ hy
    · exact ih (some c) y h

theorem findYearToken_sound (s : String) (y : Nat) (h : findYearToken s = some y) :
    1900 ≤ y ∧ y ≤ 2099 :=
  searchYearAux_sound s.data none y h

/-! ## Experience-date scan characterisation -/

/-- The contribution of one foot-data cell to the experience-date scan. -/
def cellDate (dparse : String → Option Date) (c : String) : Option Date :=
  if keywordMatch c then (extractAfterColon c).bind (parse_dates dparse) else none

theorem scanExperienceDate_findSome (dparse : String → Option Date) :
    ∀ cells, scanExperienceDate dparse cells = cells.findSome? (cellDate dparse) := by
  intro cells
  induction cells with
  | nil => rfl
  | cons c rest ih =>
    rw [List.findSome?_cons]
    unfold scanExperienceDate cellDate
    by_cases hk : keywordMatch c = true
    · rw [if_pos hk, if_pos hk]
      rcases he : extractAfterColon c with _ | ds
      · simp only [Option.bind]
        exact ih
      · rcases hp : parse_dates dparse ds with _ | d
        · simp only [Option.bind, hp]
          exact ih
        · simp only [Option.bind, hp]
    · rw [if_neg hk, if_neg hk]
      exact ih

/-! ## Dose-chart support lemmas -/

theorem doseSlots_length (table : Option (List DoseRowCells)) :
    (doseSlots table).length = 10 := by
  cases table <;> simp [doseSlots]

theorem doseSlot_missing (dataRows : List DoseRowCells) (i : Nat)
    (h : dataRows.length < i) : doseSlot dataRows i = (none, none, none) := by
  unfold doseSlot
  rw [if_neg (by omega)]

theorem doseSlot_row (dataRows : List DoseRowCells) (i : Nat) (r : DoseRowCells)
    (hi : 1 ≤ i) (h : dataRows[i-1]? = some r) :
    doseSlot dataRows i = (r.substance, r.amount, r.method) := by
  obtain ⟨hlt, _⟩ := List.getElem?_eq_some.mp h
  unfold doseSlot
  rw [if_pos (by omega), h]

theorem doseDataRows_isSome (rows : List DoseRowCells) (r : DoseRowCells)
    (h : r ∈ doseDataRows rows) : r.substance.isSome = true := by
  unfold doseDataRows at h
  have h2 := List.of_mem_filter h
  exact h2

theorem mem_of_getElem_opt (l : List α) (i : Nat) (a : α) (h : l[i]? = some a) : a ∈ l := by
  obtain ⟨hlt, he⟩ := List.getElem?_eq_some.mp h
  exact he ▸ List.getElem_mem hlt

theorem doseSlot_take10 (d1 d2 : List DoseRowCells) (i : Nat)
    (hi : 1 ≤ i) (hi2 : i ≤ 10) (h : d1.take 10 = d2.take 10) :
    doseSlot d1 i = doseSlot d2 i := by
  have hlen : min 10 d1.length = min 10 d2.length := by
    have := congrArg List.length h
    simpa using this
  have hget : d1[i-1]? = d2[i-1]? := by
    have g1 : (d1.take 10)[i-1]? = d1[i-1]? := by
      rw [List.getElem?_take]
      rw [if_pos (by omega)]
    have g2 : (d2.take 10)[i-1]? = d2[i-1]? := by
      rw [List.getElem?_take]
      rw [if_pos (by omega)]
    rw [← g1, ← g2, h]
  unfold doseSlot
  by_cases hle : i ≤ d1.length
  · rw [if_pos hle, if_pos (by omega), hget]
  · rw [if_neg hle, if_neg (by omega)]

/-! ## Concrete instances used by witnesses -/

/-- A one-category, one-page source whose single row has a working detail
page. -/
def exSource : Source :=
  { totalPages := fun _ => 1
    listing := fun sid n =>
      if sid = "39" ∧ n = 1 then
        [⟨some "5", some "anon", some "a trip", "https://www.erowid.org/exp/1"⟩]
      else []
    detail := fun _ => Except.ok ⟨some 7, [("gender", "M")]⟩ }

/-- The checkpoint state left by a first full run of `exSource`. -/
def exRun1 : ProgressData := (runCrawl exSource none emptyProgress ["39"]).1

/-- A source whose detail path always raises. -/
def exSourceErr : Source :=
  { totalPages := fun _ => 1
    listing := fun _ _ => [⟨some "3", some "bob", some "t", "u1"⟩]
    detail := fun _ => Except.error () }

/-- A date-parse oracle that always fails (dateutil raising on every
input). -/
def dparseNone : String → Option Date := fun _ => none

/-- A date-parse oracle succeeding on one fully-specified date string. -/
def dparseK : String → Option Date :=
  fun s => if s = "May 4, 2021" then some ⟨2021, 5, 4⟩ else none

set_option maxRecDepth 4000 in
/-- Bare-year fallback over the whole range, shifted to keep the decision
procedure shallow. -/
theorem bare_year_shift :
    ∀ d : Nat, d < 200 → findYearToken (Nat.repr (1900 + d)) = some (1900 + d) := by
  decide

/-! ## Claim theorems -/

/-- Claim C3: `parse_dates` first attempts full natural-language parsing
(modelled by the oracle `dparse`); a fully specified date string parses to
exactly the oracle's calendar date; if full parsing fails and the string
contains a 4-digit token in 1900–2099, the result is January 1 of that
year (in particular for a bare 4-digit year in range); empty input and
inputs with neither a parse nor a year token yield `none`. -/
theorem C3_parse_dates_two_tier :
    (∀ dparse : String → Option Date, parse_dates dparse "" = none) ∧
    (∀ (dparse : String → Option Date) (raw : String) (d : Date),
      raw ≠ "" → dparse raw = some d → parse_dates dparse raw = some d) ∧
    (∀ (dparse : String → Option Date) (raw : String) (y : Nat),
      dparse raw = none → findYearToken raw = some y →
      parse_dates dparse raw = some ⟨y, 1, 1⟩ ∧ 1900 ≤ y ∧ y ≤ 2099) ∧
    (∀ (dparse : String → Option Date) (y : Nat),
      1900 ≤ y → y ≤ 2099 → dparse (Nat.repr y) = none →
      parse_dates dparse (Nat.repr y) = some ⟨y, 1, 1⟩) ∧
    (∀ (dparse : String → Option Date) (raw : String),
      dparse raw = none → findYearToken raw = none → parse_dates dparse raw = none) := by
  have key : ∀ (dparse : String → Option Date) (raw : String) (y : Nat),
      dparse raw = none → findYearToken raw = some y →
      parse_dates dparse raw = some ⟨y, 1, 1⟩ ∧ 1900 ≤ y ∧ y ≤ 2099 := by
    intro dparse raw y hd hy
    have hne : raw ≠ "" := by
      intro heq
      subst heq
      cases hy
    obtain ⟨hlo, hhi⟩ := findYearToken_sound raw y hy
    refine ⟨?_, hlo, hhi⟩
    unfold parse_dates
    rw [if_neg (by simpa using hne), hd, hy]
  refine ⟨fun dparse => rfl, ?_, key, ?_, ?_⟩
  · intro dparse raw d hne hd
    unfold parse_dates
    rw [if_neg (by simpa using hne), hd]
  · intro dparse y h1 h2 hd
    have hy : findYearToken (Nat.repr y) = some y := by
      have hs := bare_year_shift (y - 1900) (by omega)
      rw [show 1900 + (y - 1900) = y from by omega] at hs
      exact hs
    exact (key dparse _ y hd hy).1
  · intro dparse raw hd hy
    unfold parse_dates
    split
    · rfl
    · rw [hd, hy]

theorem C3_parse_dates_two_tier_witness :
    parse_dates dparseK "" = none ∧
    parse_dates dparseK "May 4, 2021" = some ⟨2021, 5, 4⟩ ∧
    (parse_dates dparseNone "born in 1984, maybe" = some ⟨1984, 1, 1⟩ ∧
      1900 ≤ 1984 ∧ 1984 ≤ 2099) ∧
    parse_dates dparseNone (Nat.repr 1984) = some ⟨1984, 1, 1⟩ ∧
    parse_dates dparseNone "gibberish" = none := by
  have h := C3_parse_dates_two_tier
  exact ⟨h.1 dparseK,
         h.2.1 dparseK "May 4, 2021" ⟨2021, 5, 4⟩ (by decide) (by decide),
         h.2.2.1 dparseNone "born in 1984, maybe" 1984 rfl (by decide),
         h.2.2.2.1 dparseNone 1984 (by decide) (by decide) rfl,
         h.2.2.2.2 dparseNone "gibberish" rfl (by decide)⟩

/-- Claim C9: weight parsing returns a leading decimal magnitude and a
trailing unit token, lowercased with trailing plural `s` stripped:
`"170 lb"` gives `(170.0, "lb")`, `"77.5 kgs"` gives `(77.5, "kg")`, and
empty or unparseable input gives `(null, null)`; the two components are
null together, and a returned unit never ends in `s` and has no uppercase
letter. -/
theorem C9_parse_weight_contract :
    parse_weight "170 lb" = (some 170, some "lb") ∧
    parse_weight "77.5 kgs" = (some (155 / 2 : ℚ), some "kg") ∧
    parse_weight "" = (none, none) ∧
    parse_weight "totally unparseable" = (none, none) ∧
    (∀ s : String, (parse_weight s).1 = none ↔ (parse_weight s).2 = none) ∧
    (∀ (s : String) (v : ℚ) (u : String), parse_weight s = (some v, some u) →
      (∃ digits rest, (pyStrip s).data = digits ++ rest ∧ digits ≠ [] ∧
        (∀ c ∈ digits, isDigitDot c = true) ∧ parseFloatDigits digits = some v) ∧
      u.data.getLast? ≠ some 's' ∧ ∀ c ∈ u.data, c.isUpper = false) := by
  have e1 : decValue 170 0 = 170 := by norm_num [decValue]
  have e2 : decValue 775 1 = 155 / 2 := by norm_num [decValue]
  refine ⟨?_, ?_, rfl, rfl, parse_weight_none_iff, parse_weight_some⟩
  · rw [show parse_weight "170 lb" = (some (decValue 170 0), some "lb") from rfl, e1]
  · rw [show parse_weight "77.5 kgs" = (some (decValue 775 1), some "kg") from rfl, e2]

theorem C9_parse_weight_contract_witness :
    ((∃ digits rest, (pyStrip "77.5 kgs").data = digits ++ rest ∧ digits ≠ [] ∧
        (∀ c ∈ digits, isDigitDot c = true) ∧
        parseFloatDigits digits = some (decValue 775 1)) ∧
      ("kg" : String).data.getLast? ≠ some 's' ∧
      ∀ c ∈ ("kg" : String).data, c.isUpper = false) ∧
    ((parse_weight "no digits here").1 = none ↔ (parse_weight "no digits here").2 = none) := by
  exact ⟨C9_parse_weight_contract.2.2.2.2.2 "77.5 kgs" (decValue 775 1) "kg" rfl,
         C9_parse_weight_contract.2.2.2.2.1 "no digits here"⟩

/-- Claim C7: for every accepted summary record, the per-row path emits
exactly one output record — the merged full record when the detail path
returns, and a partial record of only the summary fields plus the category
when it raises — so a page's rows map one-to-one onto emitted records. -/
theorem C7_row_failure_partial :
    (∀ (src : Source) (sid : String) (pd : ProgressData) (exp : SummaryRec),
      rowsOf (processRow src sid pd exp).2 =
        [summaryRow exp (exceptToOption (src.detail exp.detail_url)) sid]) ∧
    (∀ (src : Source) (sid : String) (pd : ProgressData) (exp : SummaryRec) (e : Unit),
      src.detail exp.detail_url = Except.error e →
      rowsOf (processRow src sid pd exp).2 = [summaryRow exp none sid]) ∧
    (∀ (src : Source) (sid : String) (pd : ProgressData) (exps : List SummaryRec),
      rowsOf (processRows src sid pd exps).2 =
        exps.map (fun ex => summaryRow ex (exceptToOption (src.detail ex.detail_url)) sid)) := by
  refine ⟨?_, ?_, fun src sid pd exps => processRows_rowsOf src sid exps pd⟩
  · intro src sid pd exp
    rw [processRow_trace]
    rfl
  · intro src sid pd exp e he
    rw [processRow_trace, he]
    rfl

theorem C7_row_failure_partial_witness :
    rowsOf (processRow exSourceErr "39" emptyProgress
        ⟨some "3", some "bob", some "t", "u1"⟩).2 =
      [summaryRow ⟨some "3", some "bob", some "t", "u1"⟩ none "39"] :=
  C7_row_failure_partial.2.1 exSourceErr "39" emptyProgress
    ⟨some "3", some "bob", some "t", "u1"⟩ () rfl

/-- Claim C8: a page unit whose listing yields zero records (including a
failed fetch) is passed over: the controller fetches the listing page,
emits nothing else, does not mark the unit completed, leaves the
checkpoint state unchanged and continues with the next page. -/
theorem C8_empty_listing_not_checkpointed :
    ∀ (src : Source) (lim : Option Nat) (pd : ProgressData) (sid : String) (n : Nat),
      is_page_completed pd sid n = false → src.listing sid n = [] →
      processPage src lim pd sid n = (pd, [Ev.fetch (Fetch.page sid n)], false) ∧
      is_page_completed (processPage src lim pd sid n).1 sid n = false ∧
      countMarks (processPage src lim pd sid n).2.1 sid n = 0 := by
  intro src lim pd sid n h he
  have heq := processPage_empty src lim pd sid n h he
  refine ⟨heq, ?_, ?_⟩
  · rw [heq]
    exact h
  · rw [heq]
    rfl

theorem C8_empty_listing_not_checkpointed_witness :
    processPage exSource none emptyProgress "2" 1 =
      (emptyProgress, [Ev.fetch (Fetch.page "2" 1)], false) ∧
    is_page_completed (processPage exSource none emptyProgress "2" 1).1 "2" 1 = false ∧
    countMarks (processPage exSource none emptyProgress "2" 1).2.1 "2" 1 = 0 :=
  C8_empty_listing_not_checkpointed exSource none emptyProgress "2" 1
    (by decide) (by decide)

/-- Claim C1: a page unit recorded as completed in the checkpoint state is
skipped entirely — no listing fetch, no detail fetch, no row, no state
change; consequently a second run over an unchanged source with the
checkpoint retained never fetches the listing page of a completed unit,
never re-marks it, and accumulates zero output rows. -/
theorem C1_completed_units_skipped :
    (∀ (src : Source) (lim : Option Nat) (pd : ProgressData) (sid : String) (n : Nat),
      is_page_completed pd sid n = true →
      processPage src lim pd sid n = (pd, [], false)) ∧
    (∀ (src : Source) (pd0 : ProgressData) (sids : List String) (s : String) (m : Nat),
      is_page_completed (runCrawl src none pd0 sids).1 s m = true →
      Ev.fetch (Fetch.page s m) ∉
        (runCrawl src none (runCrawl src none pd0 sids).1 sids).2 ∧
      countMarks (runCrawl src none (runCrawl src none pd0 sids).1 sids).2 s m = 0) ∧
    (∀ (src : Source) (pd0 : ProgressData) (sids : List String),
      rowsOf (runCrawl src none (runCrawl src none pd0 sids).1 sids).2 = []) := by
  refine ⟨processPage_skip, fun src pd0 sids s m h => ⟨?_, ?_⟩,
    fun src pd0 sids => runCrawl_twice_rows src sids pd0⟩
  · exact runCrawl_no_page_fetch src none sids (runCrawl src none pd0 sids).1 s m h
  · exact (runCrawl_countMarks src none sids (runCrawl src none pd0 sids).1 s m).1 h

theorem C1_completed_units_skipped_witness :
    processPage exSource none exRun1 "39" 1 = (exRun1, [], false) ∧
    Ev.fetch (Fetch.page "39" 1) ∉ (runCrawl exSource none exRun1 ["39"]).2 ∧
    countMarks (runCrawl exSource none exRun1 ["39"]).2 "39" 1 = 0 ∧
    rowsOf (runCrawl exSource none exRun1 ["39"]).2 = [] := by
  have hcomp : is_page_completed exRun1 "39" 1 = true := by decide
  exact ⟨C1_completed_units_skipped.1 exSource none exRun1 "39" 1 hcomp,
         (C1_completed_units_skipped.2.1 exSource emptyProgress ["39"] "39" 1 hcomp).1,
         (C1_completed_units_skipped.2.1 exSource emptyProgress ["39"] "39" 1 hcomp).2,
         C1_completed_units_skipped.2.2 exSource emptyProgress ["39"]⟩

/-- Claim C2: a page unit is marked completed at most once per run and
never again once checkpointed; on the default path the mark happens only
after every summary record of the page has been resolved to a row (the
mark event follows all row events and carries the resolved record count),
the checkpoint is persisted immediately (the save event directly follows
the mark, before any further page), and the unit is completed in the
resulting state. -/
theorem C2_mark_once_after_resolution :
    (∀ (src : Source) (lim : Option Nat) (pd0 : ProgressData) (sids : List String)
        (s : String) (m : Nat),
      countMarks (runCrawl src lim pd0 sids).2 s m ≤ 1 ∧
      (is_page_completed pd0 s m = true →
        countMarks (runCrawl src lim pd0 sids).2 s m = 0)) ∧
    (∀ (src : Source) (pd : ProgressData) (sid : String) (n : Nat),
      is_page_completed pd sid n = false → src.listing sid n ≠ [] →
      processPage src none pd sid n =
        ((mark_page_completed (processRows src sid pd (src.listing sid n)).1 sid n
            (src.listing sid n).length).1,
         Ev.fetch (Fetch.page sid n) ::
           ((processRows src sid pd (src.listing sid n)).2 ++
            [Ev.mark sid n (src.listing sid n).length,
             Ev.save (mark_page_completed (processRows src sid pd (src.listing sid n)).1
               sid n (src.listing sid n).length).1]),
         false) ∧
      (rowsOf (processRows src sid pd (src.listing sid n)).2).length =
        (src.listing sid n).length ∧
      is_page_completed (processPage src none pd sid n).1 sid n = true) ∧
    (∀ (src : Source) (lim : Option Nat) (pd0 : ProgressData) (sids : List String),
      marksSaved (runCrawl src lim pd0 sids).2 = true) := by
  refine ⟨fun src lim pd0 sids s m =>
      ⟨(runCrawl_countMarks src lim sids pd0 s m).2.1,
       (runCrawl_countMarks src lim sids pd0 s m).1⟩,
    ?_, fun src lim pd0 sids => (runCrawl_wf src lim sids pd0).1⟩
  intro src pd sid n h hne
  have heq := processPage_full_none src pd sid n h hne
  have hpb := pageBody_eq src sid n pd (src.listing sid n) h
  refine ⟨by rw [heq]; exact hpb, ?_, ?_⟩
  · rw [processRows_rowsOf]
    simp
  · rw [heq, hpb]
    rcases mark_cases (processRows src sid pd (src.listing sid n)).1 sid n
        (src.listing sid n).length with ⟨h1, _⟩ | ⟨h1, h2, _⟩
    · rw [processRows_completed] at h1
      rw [is_page_completed] at h
      rw [h] at h1
      cases h1
    · rw [is_page_completed_iff, h2, processRows_completed]
      simp

theorem C2_mark_once_after_resolution_witness :
    countMarks (runCrawl exSource none emptyProgress ["39"]).2 "39" 1 ≤ 1 ∧
    countMarks (runCrawl exSource none exRun1 ["39"]).2 "39" 1 = 0 ∧
    (rowsOf (processRows exSource "39" emptyProgress (exSource.listing "39" 1)).2).length =
      (exSource.listing "39" 1).length ∧
    is_page_completed (processPage exSource none emptyProgress "39" 1).1 "39" 1 = true ∧
    marksSaved (runCrawl exSource none emptyProgress ["39"]).2 = true := by
  have h := C2_mark_once_after_resolution
  have hcomp : is_page_completed exRun1 "39" 1 = true := by decide
  exact ⟨(h.1 exSource none emptyProgress ["39"] "39" 1).1,
         (h.1 exSource none exRun1 ["39"] "39" 1).2 hcomp,
         (h.2.1 exSource emptyProgress "39" 1 (by decide) (by decide)).2.1,
         (h.2.1 exSource emptyProgress "39" 1 (by decide) (by decide)).2.2,
         h.2.2 exSource none emptyProgress ["39"]⟩

/-- Claim C10: the output file is rewritten from scratch each run with
exactly that run's accumulated rows; after a resumed run over an unchanged
source all previously completed page units are skipped, so the rows
emitted by the earlier run no longer appear in the file — concretely, a
first run of the example source emits rows, and the rewritten file after
the second run is empty. -/
theorem C10_output_rewritten_from_scratch :
    (∀ old rows : List RowOut, writeCsv old rows = rows) ∧
    (∀ (src : Source) (pd0 : ProgressData) (sids : List String) (old : List RowOut),
      writeCsv old (rowsOf (runCrawl src none (runCrawl src none pd0 sids).1 sids).2) = []) ∧
    rowsOf (runCrawl exSource none emptyProgress ["39"]).2 ≠ [] ∧
    writeCsv (rowsOf (runCrawl exSource none emptyProgress ["39"]).2)
      (rowsOf (runCrawl exSource none exRun1 ["39"]).2) = [] := by
  refine ⟨fun _ _ => rfl, fun src pd0 sids old => ?_, by decide, ?_⟩
  · show rowsOf (runCrawl src none (runCrawl src none pd0 sids).1 sids).2 = []
    exact runCrawl_twice_rows src sids pd0
  · show rowsOf (runCrawl exSource none exRun1 ["39"]).2 = []
    exact runCrawl_twice_rows exSource ["39"] emptyProgress

/-- A dose slot with all three fields null. -/
def slotFullyNull (s : Option String × Option String × Option String) : Bool :=
  s.1.isNone && s.2.1.isNone && s.2.2.isNone

/-- A dose slot with all three fields populated. -/
def slotFullyPopulated (s : Option String × Option String × Option String) : Bool :=
  s.1.isSome && s.2.1.isSome && s.2.2.isSome

/-- A dose row with a substance and amount cell but no method cell. -/
def c4RowA : DoseRowCells := ⟨some "Cannabis", some "1 bowl", none⟩

/-- A detail page whose dose chart has one row lacking a method cell. -/
def c4Page : DetailPage :=
  { doseTable := some [c4RowA]
    weightText := none
    reportDivText := none
    sentinelText := none
    footCells := none }

theorem doseSlots_getElem (rows : List DoseRowCells) (i : Nat)
    (h1 : 1 ≤ i) (h2 : i ≤ 10) :
    (doseSlots (some rows))[i - 1]? = some (doseSlot (doseDataRows rows) i) := by
  unfold doseSlots
  rw [List.getElem?_map]
  have hr : (List.range' 1 10)[i - 1]? = some (1 + (i - 1)) := by
    have h3 := List.getElem?_range' 1 1 (show i - 1 < 10 by omega)
    simpa using h3
  rw [hr, show 1 + (i - 1) = i from by omega]
  rfl

/-- Claim C4, counterexample: a dose row that the parser accepts (it has a
substance cell) but whose method cell is absent yields a slot that is
neither fully null nor fully populated, so the claim's "never partially
null across its three fields" fails on the code. -/
theorem C4_counterexample :
    (parse_detail_model dparseNone c4Page).slots.head? =
      some (some "Cannabis", some "1 bowl", none) ∧
    slotFullyNull (some "Cannabis", some "1 bowl", none) = false ∧
    slotFullyPopulated (some "Cannabis", some "1 bowl", none) = false := by
  decide

/-- Claim C4 (amended): every detail record has exactly 10 dose slots;
rows beyond the 10th are ignored (the slots depend only on the first 10
data rows); slots with no corresponding source row are explicit nulls in
all three fields; and for a source row that parses, the slot copies the
three cells independently — substance is always populated while dose and
method are each null exactly when their cell is absent, so a slot may be
partially null. -/
theorem C4_dose_slots_amended :
    (∀ (dparse : String → Option Date) (page : DetailPage),
      (parse_detail_model dparse page).slots.length = 10) ∧
    (∀ (rows : List DoseRowCells) (i : Nat), 1 ≤ i → i ≤ 10 →
      (doseDataRows rows).length < i →
      (doseSlots (some rows))[i - 1]? = some (none, none, none)) ∧
    (∀ rows1 rows2 : List DoseRowCells,
      (doseDataRows rows1).take 10 = (doseDataRows rows2).take 10 →
      doseSlots (some rows1) = doseSlots (some rows2)) ∧
    (∀ (rows : List DoseRowCells) (i : Nat) (r : DoseRowCells), 1 ≤ i → i ≤ 10 →
      (doseDataRows rows)[i - 1]? = some r →
      (doseSlots (some rows))[i - 1]? = some (r.substance, r.amount, r.method) ∧
      r.substance.isSome = true) ∧
    doseSlots none = List.replicate 10 (none, none, none) := by
  refine ⟨?_, ?_, ?_, ?_, by decide⟩
  · intro dparse page
    exact doseSlots_length page.doseTable
  · intro rows i h1 h2 h3
    rw [doseSlots_getElem rows i h1 h2, doseSlot_missing _ _ h3]
  · intro rows1 rows2 htake
    unfold doseSlots
    refine List.map_congr_left ?_
    intro a ha
    have hb := List.mem_range'_1.mp ha
    exact doseSlot_take10 _ _ a hb.1 (by omega) htake
  · intro rows i r h1 h2 hget
    refine ⟨?_, ?_⟩
    · rw [doseSlots_getElem rows i h1 h2, doseSlot_row _ i r h1 hget]
    · exact doseDataRows_isSome rows r (mem_of_getElem_opt _ _ _ hget)

theorem C4_dose_slots_amended_witness :
    (parse_detail_model dparseNone c4Page).slots.length = 10 ∧
    (doseSlots (some [c4RowA]))[1]? = some (none, none, none) ∧
    doseSlots (some (List.replicate 11 c4RowA)) =
      doseSlots (some (List.replicate 12 c4RowA)) ∧
    (doseSlots (some [c4RowA]))[0]? =
      some (c4RowA.substance, c4RowA.amount, c4RowA.method) ∧
    c4RowA.substance.isSome = true := by
  have h := C4_dose_slots_amended
  exact ⟨h.1 dparseNone c4Page,
         h.2.1 [c4RowA] 2 (by decide) (by decide) (by decide),
         h.2.2.1 (List.replicate 11 c4RowA) (List.replicate 12 c4RowA) (by decide),
         (h.2.2.2.1 [c4RowA] 1 c4RowA (by decide) (by decide) (by decide)).1,
         (h.2.2.2.1 [c4RowA] 1 c4RowA (by decide) (by decide) (by decide)).2⟩

/-- The foot-data cell texts of the C5 counterexample: the first cell
matches the keyword heuristic but its after-colon text does not
date-parse; the second matches and parses. -/
def c5Cells : List String := ["Experience: gibberish", "Exp Year: 1984"]

/-- A detail page carrying the C5 foot-data cells. -/
def c5Page : DetailPage :=
  { doseTable := none
    weightText := none
    reportDivText := none
    sentinelText := none
    footCells := some c5Cells }

/-- Claim C5, counterexample: the code's scan does NOT stop at the first
keyword-matching cell when its text fails to date-parse — it continues and
returns the second cell's date — while the claim's "first match wins, scan
stops there regardless of parse success" predicts `null` here. -/
theorem C5_counterexample :
    scanExperienceDate dparseNone c5Cells = some ⟨1984, 1, 1⟩ ∧
    scanExperienceDateSpecWords dparseNone c5Cells = none := by
  decide

/-- Claim C5 (amended): the scan returns the value of the first foot-data
cell, in order, whose text contains "exp year" or "experience"
(case-insensitive) AND whose after-first-colon substring date-parses
successfully; a matching cell that fails to extract or to parse does not
stop the scan; if no cell succeeds the result is null. -/
theorem C5_experience_date_scan_amended :
    (∀ (dparse : String → Option Date) (cells : List String),
      scanExperienceDate dparse cells = cells.findSome? (cellDate dparse)) ∧
    (∀ (dparse : String → Option Date) (page : DetailPage) (cells : List String),
      page.footCells = some cells →
      (parse_detail_model dparse page).date_experience =
        cells.findSome? (cellDate dparse)) ∧
    (∀ (dparse : String → Option Date) (c : String) (cells : List String) (d : Date),
      keywordMatch c = true → (extractAfterColon c).bind (parse_dates dparse) = some d →
      scanExperienceDate dparse (c :: cells) = some d) ∧
    (∀ (dparse : String → Option Date) (c : String) (cells : List String),
      keywordMatch c = true → (extractAfterColon c).bind (parse_dates dparse) = none →
      scanExperienceDate dparse (c :: cells) = scanExperienceDate dparse cells) := by
  refine ⟨scanExperienceDate_findSome, ?_, ?_, ?_⟩
  · intro dparse page cells hf
    show (match page.footCells with
          | some cs => scanExperienceDate dparse cs
          | none => none) = _
    rw [hf]
    exact scanExperienceDate_findSome dparse cells
  · intro dparse c cells d hk hb
    rw [scanExperienceDate_findSome, List.findSome?_cons]
    unfold cellDate
    rw [if_pos hk, hb]
  · intro dparse c cells hk hb
    rw [scanExperienceDate_findSome, scanExperienceDate_findSome, List.findSome?_cons]
    unfold cellDate
    rw [if_pos hk, hb]

theorem C5_experience_date_scan_amended_witness :
    scanExperienceDate dparseNone c5Cells = c5Cells.findSome? (cellDate dparseNone) ∧
    (parse_detail_model dparseNone c5Page).date_experience =
      c5Cells.findSome? (cellDate dparseNone) ∧
    scanExperienceDate dparseNone ["Exp Year: 1984"] = some ⟨1984, 1, 1⟩ ∧
    scanExperienceDate dparseNone ("Experience: gibberish" :: c5Cells) =
      scanExperienceDate dparseNone c5Cells := by
  have h := C5_experience_date_scan_amended
  exact ⟨h.1 dparseNone c5Cells,
         h.2.1 dparseNone c5Page c5Cells rfl,
         h.2.2.1 dparseNone "Exp Year: 1984" [] ⟨1984, 1, 1⟩ (by decide) (by decide),
         h.2.2.2 dparseNone "Experience: gibberish" c5Cells (by decide) (by decide)⟩

/-- Claim C6, counterexample: the code collapses runs of 3 or more newline
CHARACTERS (i.e. 2 or more blank lines) to two newlines, so
`"a\n\n\nb"` — which contains only a 2-blank-line run, untouched by the
claim's "collapse runs of 3+ blank lines" — comes out as `"a\n\nb"`. -/
theorem C6_counterexample :
    narrativeText (some "a\n\n\nb") none = some "a\n\nb" ∧
    collapseBlankLinesSpecWords "a\n\n\nb" = "a\n\n\nb" ∧
    ("a\n\nb" : String) ≠ "a\n\n\nb" := by
  decide

/-- Claim C6 (amended): the narrative text is the extracted body text
(tables removed, line breaks preserved — a collaborator call, supplied as
input) with every run of 3 or more consecutive newline characters
collapsed to exactly two newlines (equivalently, 2+ consecutive blank
lines become one blank line): the result never contains three consecutive
newlines, text without such runs is unchanged, and when neither the body
container nor the sentinel fallback yields text the field is null — never
the empty string. -/
theorem C6_narrative_amended :
    (∀ s : String, hasTripleNewline (collapseNewlines s).data = false) ∧
    (∀ s : String, hasTripleNewline s.data = false → collapseNewlines s = s) ∧
    (∀ (r sn : Option String) (t : String), narrativeText r sn = some t → t ≠ "") ∧
    narrativeText none none = none ∧
    (∀ sn : Option String, narrativeText (some "") sn = none) ∧
    (∀ (dparse : String → Option Date) (page : DetailPage),
      (parse_detail_model dparse page).text =
        narrativeText page.reportDivText page.sentinelText) ∧
    collapseNewlines "a\n\n\n\nb" = "a\n\nb" := by
  refine ⟨collapseNewlines_no_triple, collapseNewlines_id, ?_, rfl, fun sn => rfl,
    fun dparse page => rfl, by decide⟩
  intro r sn t h
  unfold narrativeText at h
  rcases r with _ | t0
  · rcases sn with _ | t1
    · cases h
    · dsimp only at h
      split at h
      · cases h
      · rename_i hcond
        injection h with h1
        rw [← h1]
        exact hcond
  · dsimp only at h
    split at h
    · cases h
    · rename_i hcond
      injection h with h1
      rw [← h1]
      exact hcond

theorem C6_narrative_amended_witness :
    hasTripleNewline (collapseNewlines "x\n\n\n\n\ny").data = false ∧
    collapseNewlines "a\n\nb" = "a\n\nb" ∧
    ("hello" : String) ≠ "" := by
  have h := C6_narrative_amended
  exact ⟨h.1 "x\n\n\n\n\ny",
         h.2.1 "a\n\nb" (by decide),
         h.2.2.1 (some "hello") none "hello" (by decide)⟩
